import Mathlib

/-!
Shallow embedding of the rqe expression compiler (src/parser.go,
src/parser_errors.go and the macro handler file) together with proofs
about the properties its specification states.

The lexical tokenizer (github.com/bzick/tokenizer) is an external
collaborator of the compiler; the spec treats it as a black box with a
fixed contract (position-tagged tokens classified into kinds).  We embed
the compiler as a function over the token stream it receives, modelling
the stream by a list of tokens.  Go strings are kept as Lean `String`s
(all characters the compiler itself writes are ASCII), Go `int`/`int64`
as `Int`, Go slices as lists.
-/

namespace Rqe

/-- Values of Go dynamic type `interface\x7b\x7d` (`any`) as they occur in the
compiler: `int64`/`float64`/`string` decoded from value tokens, plus the
scalar shapes a JSON-style array literal decodes to, plus the extra
numeric types the `age` macro's type switch distinguishes.  Float payloads
are carried opaquely (by their source text): the compiler never computes
with them, it only moves them into the argument list. -/
inductive GoAny where
  | goInt (n : Int)
  | goInt16 (n : Int)
  | goInt32 (n : Int)
  | goInt64 (n : Int)
  | goFloat32 (repr : String)
  | goFloat64 (repr : String)
  | goString (s : String)
  | goBool (b : Bool)
  | goNull
deriving DecidableEq, Repr

/-- Modelled from the spec: token kinds of the external tokenizer
("identifier/keyword, operator-keyword, logical-keyword,
parenthesis-open, parenthesis-close, quoted-string, array-literal,
numeric (integer/float), macro-name").  A quoted-string token carries its
raw text including the outer quotes (the compiler strips them); an
array-literal token carries its raw `[...]` text together with the result
of JSON-decoding it (`none` when `json.Unmarshal` fails), since the JSON
decoder is external to the compiler. -/
inductive TokenData where
  | keyword (name : String)
  | op (name : String)
  | logical (name : String)
  | lparen
  | rparen
  | strLit (raw : String)
  | arrayLit (raw : String) (decoded : Option (List GoAny))
  | intLit (n : Int) (raw : String)
  | floatLit (raw : String)
  | macroName (name : String)
  | undef (raw : String)
deriving DecidableEq, Repr

/-- Modelled from the spec: a stream token "must expose, per token, its
kind, literal text, decoded numeric/string payload where applicable, and
1-based line and 0-based offset". -/
structure Token where
  data : TokenData
  line : Nat
  offset : Nat
deriving DecidableEq, Repr

/-- The token's `ValueString()`: its literal text. -/
def Token.valueString (t : Token) : String :=
  match t.data with
  | .keyword name => name
  | .op name => name
  | .logical name => name
  | .lparen => "("
  | .rparen => ")"
  | .strLit raw => raw
  | .arrayLit raw _ => raw
  | .intLit _ raw => raw
  | .floatLit raw => raw
  | .macroName name => name
  | .undef raw => raw

/-- The error values of src/parser_errors.go and the two macro errors,
with the fields the Go structs carry.  Line/offset fields keep the values
the compiler stores in them (Go zero values included). -/
inductive ParseErr where
  | invalidColumn (column : String) (line pos : Nat)
  | unexpectedToken (token : String) (line pos : Nat)
  | logicalToken (reason : String) (line pos : Nat)
  | missingValue (column : String) (line pos : Nat)
  | invalidOperation (operation column : String) (line pos : Nat)
  | unmatchedParen (kind : String) (line pos : Nat)
  | macroNotImpl (column macroNm : String)
  | invalidMacroValue (column detail : String)
deriving DecidableEq, Repr

/-- `OperationMeta` of src/parser.go: render template, arity class, and
the (never consulted) fixed multi-value limit. -/
structure OperationMeta where
  Value : Nat → String
  IsMultiValue : Bool
  MultiValueLimit : Nat

/-- `ParsedQuery` of src/parser.go. -/
structure ParsedQuery where
  SQL : String
  Args : List GoAny
deriving DecidableEq, Repr

/-- Helper of the `in` template: `strings.Join(placeholders, ", ")` over
`quotes` copies of `?`. -/
def joinCommaQ : Nat → String
  | 0 => ""
  | 1 => "?"
  | n + 1 => "?, " ++ joinCommaQ n

/-- The `operationsMapped` table of src/parser.go. -/
def operationsMapped (name : String) : Option OperationMeta :=
  match name with
  | "lt" => some ⟨fun _ => "< ?", false, 0⟩
  | "lte" => some ⟨fun _ => "<= ?", false, 0⟩
  | "eq" => some ⟨fun _ => "= ?", false, 0⟩
  | "gte" => some ⟨fun _ => ">= ?", false, 0⟩
  | "gt" => some ⟨fun _ => "> ?", false, 0⟩
  | "ne" => some ⟨fun _ => "<> ?", false, 0⟩
  | "in" => some ⟨fun quotes => "IN (" ++ joinCommaQ quotes ++ ")", true, 0⟩
  | "between" => some ⟨fun _ => "BETWEEN ? AND ?", true, 2⟩
  | _ => none

/-- Modelled from the spec: a wall-clock timestamp, enough structure for
"now minus N years" and a fixed datetime rendering. -/
structure GoTime where
  year : Int
  month : Nat
  day : Nat
  hour : Nat
  minute : Nat
  second : Nat
deriving DecidableEq, Repr

/-- Modelled from the spec: `AddDate(-n, 0, 0)`, "now minus N years"
(`addYears t dy` shifts the year by `dy`). -/
def GoTime.addYears (t : GoTime) (dy : Int) : GoTime :=
  { t with year := t.year + dy }

/-- Two-digit zero padding of datetime components. -/
def pad2 (n : Nat) : String :=
  if n < 10 then "0" ++ toString n else toString n

/-- Modelled from the spec: rendering with the fixed `time.DateTime`
layout the `age` macro is registered with. -/
def formatDateTime (t : GoTime) : String :=
  toString t.year ++ "-" ++ pad2 t.month ++ "-" ++ pad2 t.day ++ " " ++
    pad2 t.hour ++ ":" ++ pad2 t.minute ++ ":" ++ pad2 t.second

/-- The dynamic type name `reflect.TypeOf(v)` renders in the macro's
error detail. -/
def goAnyTypeName : GoAny → String
  | .goInt _ => "int"
  | .goInt16 _ => "int16"
  | .goInt32 _ => "int32"
  | .goInt64 _ => "int64"
  | .goFloat32 _ => "float32"
  | .goFloat64 _ => "float64"
  | .goString _ => "string"
  | .goBool _ => "bool"
  | .goNull => "<nil>"

/-- The `%v` rendering of a value in the macro's error detail. -/
def goAnyRepr : GoAny → String
  | .goInt n => toString n
  | .goInt16 n => toString n
  | .goInt32 n => toString n
  | .goInt64 n => toString n
  | .goFloat32 r => r
  | .goFloat64 r => r
  | .goString s => s
  | .goBool b => if b then "true" else "false"
  | .goNull => "<nil>"

/-- The type switch inside `AgeMacro.RunMacro`: the cases `int`, `int16`,
`int32`, `float32`, `float64` have empty bodies (Go has no implicit
fallthrough), leaving `newVal` at its zero value; only `case int64:`
assigns the value; every other dynamic type is an `InvalidMacroValueError`. -/
def ageSwitch (col : String) (v : GoAny) : Except ParseErr Int :=
  match v with
  | .goInt _ => .ok 0
  | .goInt16 _ => .ok 0
  | .goInt32 _ => .ok 0
  | .goFloat32 _ => .ok 0
  | .goFloat64 _ => .ok 0
  | .goInt64 n => .ok n
  | _ => .error (.invalidMacroValue col
      (goAnyRepr v ++ " of type [" ++ goAnyTypeName v ++ "] cannot be casted into an integer"))

/-- Two's-complement wraparound of a 64-bit signed integer: the result of
any Go `int64` operation is its mathematical value reduced into
`[-2^63, 2^63)`. Used where the handler computes `-1*newVal` on an
`int64`, which overflows at `newVal = -2^63`. -/
def wrapInt64 (x : Int) : Int :=
  (x + 2 ^ 63) % 2 ^ 64 - 2 ^ 63

/-- `AgeMacro.RunMacro` of the macro handler file: per argument, run the
type switch, then append `time.Now().AddDate(int(-1*newVal), 0, 0)`
formatted with the registered layout; the first switch failure aborts the
call. The product `-1*newVal` is Go `int64` arithmetic, hence wraps
(`int(...)` is the identity on a 64-bit platform). `now` stands for the
wall clock read. -/
def ageMacroRun (now : GoTime) (col : String) : List GoAny → Except ParseErr (List GoAny)
  | [] => .ok []
  | v :: rest =>
    match ageSwitch col v with
    | .error e => .error e
    | .ok newVal =>
      match ageMacroRun now col rest with
      | .error e => .error e
      | .ok tail =>
        .ok (.goString (formatDateTime (now.addYears (wrapInt64 (-newVal)))) :: tail)

/-- `SupportedMacros` of the macro handler file. -/
def SupportedMacros : List String := ["age"]

/-- The `MacroHandlers` registry: name to transform (the handler reads
the wall clock, passed here as `now`). -/
def MacroHandlers (name : String) :
    Option (GoTime → String → List GoAny → Except ParseErr (List GoAny)) :=
  if name = "age" then some ageMacroRun else none

/-- `writeWithSpaces` of src/parser.go: a space before the content when
the builder is non-empty, and a space after it. -/
def writeWithSpaces (sb content : String) : String :=
  (if sb.length > 0 then sb ++ " " else sb) ++ content ++ " "

/-- Characters `strings.TrimSpace` removes (the compiler itself only
ever produces ASCII spaces). -/
def isGoSpace (c : Char) : Bool :=
  c = ' ' || c = '\t' || c = '\n' || c = '\r'

/-- `strings.TrimSpace` on the character list. -/
def trimSpaceList (l : List Char) : List Char :=
  ((l.dropWhile isGoSpace).reverse.dropWhile isGoSpace).reverse

/-- `strings.TrimSpace`. -/
def trimSpace (s : String) : String :=
  String.mk (trimSpaceList s.data)

/-- `strVal[1:len(strVal)-1]`: strip the outer quote characters. -/
def stripOuter (s : String) : String :=
  String.mk ((s.data.drop 1).dropLast)

/-- Tokens `GoNextIfNextIs(tokenizer.TokenFloat, tokenizer.TokenInteger,
tokenizer.TokenString, TMacro)` accepts as a value (framed strings —
quoted strings and array literals — are both `TokenString`). -/
def isValueTok (t : Token) : Bool :=
  match t.data with
  | .floatLit _ => true
  | .intLit _ _ => true
  | .strLit _ => true
  | .arrayLit _ _ => true
  | .macroName _ => true
  | _ => false

/-- `Is(TLogicalOperation)` on an optional token (`PrevToken`/`NextToken`
of an exhausted position is the undefined token). -/
def optIsLogical : Option Token → Bool
  | some ⟨.logical _, _, _⟩ => true
  | _ => false

/-- `Is(tokenizer.TokenKeyword)` on an optional token. -/
def optIsKeyword : Option Token → Bool
  | some ⟨.keyword _, _, _⟩ => true
  | _ => false

/-- `Is(TParenClose)` on an optional token. -/
def optIsRparen : Option Token → Bool
  | some ⟨.rparen, _, _⟩ => true
  | _ => false

/-- The value-parsing switch of src/parser.go (lines 209–234), run on the
current token once a clause's value position is reached: floats and
integers become one argument; a framed string is either an array literal
(multi-value operators only, JSON-decoded, non-empty, its length becoming
the placeholder count) or a quoted string stripped of its outer quotes;
a token matching none of the cases leaves the collected values empty.
Returns the collected values and `quotesNeeded`. -/
def valueSwitch (cur : Token) (op : OperationMeta) (colName : String)
    (line column : Nat) : Except ParseErr (List GoAny × Nat) :=
  match cur.data with
  | .floatLit repr => .ok ([.goFloat64 repr], 1)
  | .intLit n _ => .ok ([.goInt64 n], 1)
  | .arrayLit _ decoded =>
    if ¬ op.IsMultiValue then
      .error (.invalidOperation "multi-value array" colName line column)
    else
      match decoded with
      | none => .error (.unexpectedToken "invalid array argument" line column)
      | some value =>
        if value.length = 0 then
          .error (.invalidOperation "multi-value array empty arguments" colName line column)
        else
          .ok (value, value.length)
  | .strLit raw => .ok ([.goString (stripOuter raw)], 1)
  | _ => .ok ([], 1)

/-- Result type of the compiler. -/
abbrev Res := Except ParseErr ParsedQuery

/-- State of one loop iteration: `PrevToken`, the tokens from the cursor
on, the output builder, the argument list and the parenthesis stack. -/
abbrev Cont := Option Token → List Token → String → List GoAny → List Nat → Res

/-- The keyword-clause branch of the token loop (src/parser.go lines
171–251): validate the column, require an operator token and resolve it,
require a value token, handle the macro `( value )` frame (checking the
closing parenthesis one token ahead, as the source does), run the value
switch, run the macro transform, then emit `column <template>` and append
the collected values.  `recur` continues the loop; after a macro the
source's `GoNext().GoNext()` plus the loop's final `GoNext` skip the
closing parenthesis and one further token. -/
def clauseStep (now : GoTime) (validateCol : String → Bool) (recur : Cont)
    (colName : String) (tl toff : Nat) (rest : List Token) (sb : String)
    (vals : List GoAny) (parenStack : List Nat) : Res :=
  if ¬ validateCol colName then
    .error (.invalidColumn colName tl toff)
  else
    match rest with
    | [] => .error (.unexpectedToken "equality operation" tl (toff + colName.length))
    | opTok :: rest2 =>
      match opTok.data with
      | .op opValue =>
        match operationsMapped opValue with
        | none => .error (.invalidOperation opValue colName tl (toff + colName.length))
        | some op =>
          match rest2 with
          | [] => .error (.missingValue colName tl (toff + colName.length + opValue.length))
          | vTok :: rest3 =>
            if isValueTok vTok then
              match vTok.data with
              | .macroName mName =>
                match rest3 with
                | lpTok :: rest4 =>
                  match lpTok.data with
                  | .lparen =>
                    match rest4 with
                    | w :: cp :: rest6 =>
                      if ¬ optIsRparen (some cp) then
                        .error (.unexpectedToken "Macro expressions must have opening parenthesis and closing ones" tl toff)
                      else
                        match valueSwitch w op colName tl toff with
                        | .error e => .error e
                        | .ok (currentVals, quotesNeeded) =>
                          match MacroHandlers mName with
                          | none => .error (.macroNotImpl colName mName)
                          | some h =>
                            match h now colName currentVals with
                            | .error e => .error e
                            | .ok transformed =>
                              match rest6 with
                              | [] => recur (some cp) []
                                  (writeWithSpaces sb (colName ++ " " ++ op.Value quotesNeeded))
                                  (vals ++ transformed) parenStack
                              | x :: rest7 => recur (some x) rest7
                                  (writeWithSpaces sb (colName ++ " " ++ op.Value quotesNeeded))
                                  (vals ++ transformed) parenStack
                    | _ =>
                      .error (.unexpectedToken "Macro expressions must have opening parenthesis and closing ones" tl toff)
                  | _ =>
                    .error (.unexpectedToken "Macro expressions must have opening parenthesis and closing ones" tl toff)
                | [] =>
                  .error (.unexpectedToken "Macro expressions must have opening parenthesis and closing ones" tl toff)
              | _ =>
                match valueSwitch vTok op colName tl toff with
                | .error e => .error e
                | .ok (currentVals, quotesNeeded) =>
                  recur (some vTok) rest3
                    (writeWithSpaces sb (colName ++ " " ++ op.Value quotesNeeded))
                    (vals ++ currentVals) parenStack
            else
              .error (.missingValue colName tl (toff + colName.length + opValue.length))
      | _ => .error (.unexpectedToken "equality operation" tl (toff + colName.length))

/-- The logical-keyword branch of the token loop (src/parser.go lines
252–262): reject a logical token whose neighbour is logical, whose
character offset is zero, or which ends the stream (the error struct's
line and position keep their Go zero values), otherwise emit the token
text verbatim. -/
def logicalStep (recur : Cont) (prev : Option Token) (t : Token)
    (rest : List Token) (sb : String) (vals : List GoAny)
    (parenStack : List Nat) : Res :=
  if optIsLogical prev || optIsLogical rest.head? then
    .error (.logicalToken "before or after a logical operation, you must have an expression or nested expression" 0 0)
  else if t.offset = 0 then
    .error (.logicalToken "cannot start with a logical operation" 0 0)
  else
    match rest with
    | [] => .error (.logicalToken "cannot end with a logical operation" 0 0)
    | _ => recur (some t) rest (writeWithSpaces sb t.valueString) vals parenStack

/-- The parenthesis and default branches of the token loop
(src/parser.go lines 264–279), keyed on the token's literal text as in
the source: `(` requires a keyword next, pushes `len(vals)` and emits
`(`; `)` requires a non-empty stack, pops and emits `) `; anything else
is an unexpected token. -/
def defaultStep (recur : Cont) (t : Token) (rest : List Token) (sb : String)
    (vals : List GoAny) (parenStack : List Nat) : Res :=
  if t.valueString = "(" then
    if ¬ optIsKeyword rest.head? then
      .error (.unexpectedToken "expression" t.line t.offset)
    else
      recur (some t) rest (writeWithSpaces sb "(") vals (parenStack ++ [vals.length])
  else if t.valueString = ")" then
    if parenStack.length = 0 then
      .error (.unmatchedParen "closing" t.line t.offset)
    else
      recur (some t) rest (writeWithSpaces sb ") ") vals parenStack.dropLast
  else
    .error (.unexpectedToken t.valueString t.line t.offset)

/-- One iteration of the token loop of `Parse` (src/parser.go lines
166–290): at end of stream, fail on unclosed parentheses or return the
trimmed SQL and arguments; otherwise dispatch on the current token's
kind as the source's switch does. -/
def loopBody (now : GoTime) (validateCol : String → Bool) (recur : Cont) : Cont :=
  fun prev toks sb vals parenStack =>
    match toks with
    | [] =>
      if parenStack.length > 0 then .error (.unmatchedParen "opening" 0 0)
      else .ok ⟨trimSpace sb, vals⟩
    | t :: rest =>
      match t.data with
      | .keyword colName =>
        clauseStep now validateCol recur colName t.line t.offset rest sb vals parenStack
      | .logical _ => logicalStep recur prev t rest sb vals parenStack
      | _ => defaultStep recur t rest sb vals parenStack

/-- The token loop, paced by a fuel argument: every iteration consumes at
least one token, so with `fuel` at least the stream length the zero-fuel
continuation (only reachable on an empty stream, where the body never
calls it) cannot influence the result.  `Parse` supplies the stream
length as fuel. -/
def parseLoop (now : GoTime) (validateCol : String → Bool) : Nat → Cont
  | 0 => loopBody now validateCol (fun _ _ _ _ _ => .error (.unexpectedToken "" 0 0))
  | fuel + 1 => loopBody now validateCol (parseLoop now validateCol fuel)

/-- `Parse` of src/parser.go, as a function of the token stream the
external tokenizer produces for the filter text.  `now` stands for the
wall clock the `age` macro reads. -/
def Parse (now : GoTime) (toks : List Token) (validateCol : String → Bool) : Res :=
  parseLoop now validateCol toks.length none toks "" [] []

/-- Number of `?` placeholder markers in a string. -/
def countQ (s : String) : Nat := s.data.count '?'

/-- Identifier characters the tokenizer's keyword tokens consist of
(letters plus the allowed `Underscore` and `Numbers` symbol classes). -/
def isIdentChar (c : Char) : Bool := c.isAlpha || c.isDigit || c = '_'

/-- Modelled from the spec: well-formedness the external tokenizer
guarantees per token: keyword tokens are non-empty identifiers, logical
tokens are exactly the defined `and`/`or`, framed quoted-string tokens
begin with their quote border. -/
def tokenWF : Token → Bool
  | ⟨.keyword name, _, _⟩ => !name.data.isEmpty && name.data.all isIdentChar
  | ⟨.logical name, _, _⟩ => name == "and" || name == "or"
  | ⟨.strLit raw, _, _⟩ =>
    (match raw.data with
     | c :: _ => c == '"' || c == '\''
     | [] => false)
  | _ => true

/-- Modelled from the spec: token-stream well-formedness. -/
def wfStream (ts : List Token) : Bool := ts.all tokenWF

/-- Value tokens that are scalars or array literals (not macro names). -/
def isPlainValueTok (t : Token) : Bool :=
  match t.data with
  | .floatLit _ => true
  | .intLit _ _ => true
  | .strLit _ => true
  | .arrayLit _ _ => true
  | _ => false

/-- Arity side condition on one token and its successors: a `between`
operator must be immediately followed by an array literal that decodes to
exactly two elements, and a macro name followed by `(` must frame a
scalar or array value token. -/
def tokArityOK : Token → List Token → Bool
  | ⟨.op "between", _, _⟩, u :: _ =>
    (match u.data with
     | .arrayLit _ (some l) => l.length == 2
     | _ => false)
  | ⟨.macroName _, _, _⟩, u :: w :: _ =>
    (match u.data with
     | .lparen => isPlainValueTok w
     | _ => true)
  | _, _ => true

/-- The arity side condition over a whole stream. -/
def streamOK : List Token → Bool
  | [] => true
  | t :: rest => tokArityOK t rest && streamOK rest

lemma streamOK_cons {t : Token} {rest : List Token}
    (h : streamOK (t :: rest) = true) : streamOK rest = true := by
  unfold streamOK at h
  exact (Bool.and_eq_true_iff.mp h).2

lemma wfStream_cons {t : Token} {rest : List Token}
    (h : wfStream (t :: rest) = true) : tokenWF t = true ∧ wfStream rest = true := by
  unfold wfStream at h ⊢
  simpa using h

lemma countQ_append (a b : String) : countQ (a ++ b) = countQ a + countQ b := by
  simp [countQ, String.data_append, List.count_append]

lemma countQ_space : countQ " " = 0 := rfl

lemma countQ_writeWithSpaces (sb u : String) :
    countQ (writeWithSpaces sb u) = countQ sb + countQ u := by
  unfold writeWithSpaces
  split <;> simp [countQ_append, countQ_space]

lemma count_dropWhile_eq {p : Char → Bool} {c : Char} (hc : p c = false) :
    ∀ l : List Char, (l.dropWhile p).count c = l.count c := by
  intro l
  induction l with
  | nil => rfl
  | cons a l ih =>
    by_cases h : p a
    · rw [List.dropWhile_cons_of_pos h, ih, List.count_cons]
      have : ¬ a = c := fun he => by rw [he] at h; rw [hc] at h; exact Bool.noConfusion h
      simp [this]
    · rw [List.dropWhile_cons_of_neg h]

lemma countQ_trimSpace (s : String) : countQ (trimSpace s) = countQ s := by
  have hq : isGoSpace '?' = false := rfl
  simp [trimSpace, trimSpaceList, countQ, List.count_reverse, count_dropWhile_eq hq]

lemma countQ_joinCommaQ : ∀ n, countQ (joinCommaQ n) = n := by
  intro n
  induction n with
  | zero => rfl
  | succ m ih =>
    match m, ih with
    | 0, _ => rfl
    | k + 1, ih =>
      rw [show joinCommaQ (k + 1 + 1) = "?, " ++ joinCommaQ (k + 1) from rfl,
        countQ_append, ih, show countQ "?, " = 1 from rfl]
      omega

lemma countQ_of_ident {name : String} (h : name.data.all isIdentChar = true) :
    countQ name = 0 := by
  rw [countQ, List.count_eq_zero]
  intro hmem
  have := List.all_eq_true.mp h _ hmem
  simp [isIdentChar] at this

/-- Characterization of the operator registry: `in` and `between` are the
multi-value entries, every other entry is scalar with a fixed one-placeholder
template. -/
lemma operationsMapped_spec {name : String} {op : OperationMeta}
    (h : operationsMapped name = some op) :
    (name = "in" ∧ op.IsMultiValue = true ∧
      op.Value = fun quotes => "IN (" ++ joinCommaQ quotes ++ ")") ∨
    (name = "between" ∧ op.IsMultiValue = true ∧
      op.Value = fun _ => "BETWEEN ? AND ?") ∨
    (op.IsMultiValue = false ∧
      op.Value ∈ ([fun _ => "< ?", fun _ => "<= ?", fun _ => "= ?",
        fun _ => ">= ?", fun _ => "> ?", fun _ => "<> ?"] : List (Nat → String))) := by
  unfold operationsMapped at h
  split at h <;> first
    | exact Option.noConfusion h
    | (cases h; simp_all)

lemma countQ_scalar_template {f : Nat → String}
    (h : f ∈ ([fun _ => "< ?", fun _ => "<= ?", fun _ => "= ?",
      fun _ => ">= ?", fun _ => "> ?", fun _ => "<> ?"] : List (Nat → String)))
    (q : Nat) : countQ (f q) = 1 := by
  simp only [List.mem_cons, List.not_mem_nil, or_false] at h
  rcases h with h | h | h | h | h | h <;> (subst h; rfl)

lemma ageMacroRun_length {now : GoTime} {col : String} :
    ∀ {args out : List GoAny}, ageMacroRun now col args = .ok out →
      out.length = args.length := by
  intro args
  induction args with
  | nil => intro out h; cases h; rfl
  | cons v rest ih =>
    intro out h
    unfold ageMacroRun at h
    cases hs : ageSwitch col v with
    | error e => rw [hs] at h; exact Except.noConfusion h
    | ok nv =>
      rw [hs] at h
      cases hr : ageMacroRun now col rest with
      | error e => rw [hr] at h; exact Except.noConfusion h
      | ok tail =>
        rw [hr] at h
        cases h
        simp [ih hr]


lemma countQ_lparenStr : countQ "(" = 0 := rfl

lemma countQ_rparenStr : countQ ") " = 0 := rfl

lemma countQ_logicalName {name : String} (h : (name == "and" || name == "or") = true) :
    countQ name = 0 := by
  rcases Bool.or_eq_true_iff.mp h with h1 | h1 <;>
    (rw [show name = _ from eq_of_beq h1]; rfl)

lemma countQ_inTemplate (q : Nat) : countQ ("IN (" ++ joinCommaQ q ++ ")") = q := by
  rw [countQ_append, countQ_append, countQ_joinCommaQ,
    show countQ "IN (" = 0 from rfl, show countQ ")" = 0 from rfl]
  omega

/-- Outcome of the value switch on a scalar-or-array token: either one
scalar value with one placeholder, or (for a multi-value operator) the
decoded non-empty array with its length as placeholder count. -/
lemma valueSwitch_spec {w : Token} {op : OperationMeta} {colName : String}
    {line column : Nat} {cv : List GoAny} {q : Nat}
    (h : valueSwitch w op colName line column = .ok (cv, q))
    (hplain : isPlainValueTok w = true) :
    (cv.length = 1 ∧ q = 1) ∨
    (op.IsMultiValue = true ∧ ∃ raw l, w.data = .arrayLit raw (some l) ∧
      cv = l ∧ q = l.length ∧ l ≠ []) := by
  rcases w with ⟨d, wl, wo⟩
  cases d <;> simp [isPlainValueTok] at hplain <;>
    simp only [valueSwitch] at h
  case floatLit repr => cases h; left; exact ⟨rfl, rfl⟩
  case intLit nn raw => cases h; left; exact ⟨rfl, rfl⟩
  case strLit raw => cases h; left; exact ⟨rfl, rfl⟩
  case arrayLit raw dec =>
    by_cases hm : op.IsMultiValue = true
    · simp only [hm, not_true, if_neg, ite_false] at h
      cases dec with
      | none => simp at h
      | some l =>
        simp only at h
        by_cases hl : l.length = 0
        · simp [hl] at h
        · simp [hl] at h
          right
          refine ⟨hm, raw, l, rfl, h.1.symm, h.2.symm, ?_⟩
          intro he
          exact hl (by simp [he])
    · simp only [Bool.not_eq_true] at hm
      simp [hm] at h


lemma streamOK_head {t : Token} {rest : List Token}
    (h : streamOK (t :: rest) = true) : tokArityOK t rest = true := by
  unfold streamOK at h
  exact (Bool.and_eq_true_iff.mp h).1

lemma tokenWF_keyword {name : String} {tl toff : Nat}
    (h : tokenWF ⟨.keyword name, tl, toff⟩ = true) :
    name.data.all isIdentChar = true := by
  simp only [tokenWF, Bool.and_eq_true] at h
  exact h.2

lemma tokenWF_logical {name : String} {tl toff : Nat}
    (h : tokenWF ⟨.logical name, tl, toff⟩ = true) :
    (name == "and" || name == "or") = true := by
  simpa [tokenWF] using h

lemma tokArityOK_between {opl opo : Nat} {vTok : Token} {rest3 : List Token}
    (h : tokArityOK ⟨.op "between", opl, opo⟩ (vTok :: rest3) = true) :
    ∃ raw l, vTok.data = .arrayLit raw (some l) ∧ l.length = 2 := by
  rcases vTok with ⟨dv, vl, vo⟩
  cases dv <;> simp only [tokArityOK] at h <;> try exact Bool.noConfusion h
  case arrayLit raw dec =>
    cases dec with
    | none => exact Bool.noConfusion h
    | some l => exact ⟨raw, l, rfl, by simpa using h⟩

lemma tokArityOK_macroArg {m : String} {tl toff : Nat} {lpTok w : Token}
    {rest : List Token} {lpl lpo : Nat}
    (h : tokArityOK ⟨.macroName m, tl, toff⟩ (lpTok :: w :: rest) = true)
    (hlp : lpTok = ⟨.lparen, lpl, lpo⟩) :
    isPlainValueTok w = true := by
  subst hlp
  simpa only [tokArityOK] using h

lemma isPlain_of_isValue {t : Token} (h : isValueTok t = true)
    (hm : ∀ m, t.data ≠ .macroName m) : isPlainValueTok t = true := by
  rcases t with ⟨d, tl, toff⟩
  cases d <;> first
    | rfl
    | exact Bool.noConfusion h
    | exact absurd rfl (hm _)

lemma MacroHandlers_eq {name : String}
    {h : GoTime → String → List GoAny → Except ParseErr (List GoAny)}
    (heq : MacroHandlers name = some h) : h = ageMacroRun := by
  unfold MacroHandlers at heq
  split at heq
  · cases heq; rfl
  · exact Option.noConfusion heq

/-- Placeholder count contributed by an emitted clause fragment matches
the number of collected values, under the arity side conditions. -/
lemma clause_countQ {opValue colName : String} {op : OperationMeta}
    {cv : List GoAny} {q : Nat}
    (hOp : operationsMapped opValue = some op)
    (hvs : (cv.length = 1 ∧ q = 1) ∨
      (op.IsMultiValue = true ∧ q = cv.length ∧ cv ≠ []))
    (hbet : opValue = "between" → cv.length = 2)
    (hident : colName.data.all isIdentChar = true) :
    countQ (colName ++ " " ++ op.Value q) = cv.length := by
  rw [countQ_append, countQ_append, countQ_of_ident hident, countQ_space]
  rcases operationsMapped_spec hOp with ⟨_, _, hval⟩ | ⟨hb, _, hval⟩ | ⟨hmv, hval⟩
  · rw [hval]
    rcases hvs with ⟨hc, hq⟩ | ⟨_, hq, _⟩
    · rw [hq, countQ_inTemplate, hc]
    · rw [hq, countQ_inTemplate]
      omega
  · rw [hval, show countQ "BETWEEN ? AND ?" = 2 from rfl, hbet hb]
  · rcases hvs with ⟨hc, _⟩ | ⟨hmv2, _⟩
    · rw [countQ_scalar_template hval, hc]
    · rw [hmv] at hmv2; exact Bool.noConfusion hmv2



/-- Conversion of `valueSwitch_spec`'s outcome to the count form used by
`clause_countQ`. -/
lemma valueSwitch_count {w : Token} {op : OperationMeta} {colName : String}
    {line column : Nat} {cv : List GoAny} {q : Nat}
    (h : valueSwitch w op colName line column = .ok (cv, q))
    (hplain : isPlainValueTok w = true) :
    (cv.length = 1 ∧ q = 1) ∨ (op.IsMultiValue = true ∧ q = cv.length ∧ cv ≠ []) := by
  rcases valueSwitch_spec h hplain with hc | ⟨hmv, raw, l, _, hcl, hq, hne⟩
  · exact Or.inl hc
  · subst hcl
    exact Or.inr ⟨hmv, hq, hne⟩

/-- In a clause whose value token is a direct array, the decoded list is
determined by the token. -/
lemma valueSwitch_array_det {w : Token} {op : OperationMeta} {colName : String}
    {line column : Nat} {cv : List GoAny} {q : Nat} {raw : String} {l : List GoAny}
    (h : valueSwitch w op colName line column = .ok (cv, q))
    (hdata : w.data = .arrayLit raw (some l)) : cv = l := by
  obtain ⟨dw, wl, wo⟩ := w
  rw [show Token.data ⟨dw, wl, wo⟩ = dw from rfl] at hdata
  subst hdata
  simp only [valueSwitch] at h
  split at h
  · exact Except.noConfusion h
  · split at h
    · exact Except.noConfusion h
    · cases h
      rfl

/-- Placeholder-count invariant of the token loop: under the arity side
conditions and the tokenizer contract, a successful run returns as many
placeholders in the SQL text as arguments. -/
lemma parseLoop_countQ (now : GoTime) (v : String → Bool) :
    ∀ (fuel : Nat) (ts : List Token), ts.length ≤ fuel →
      ∀ (prev : Option Token) (sb : String) (vals : List GoAny)
        (stack : List Nat) (p : ParsedQuery),
        streamOK ts = true → wfStream ts = true →
        countQ sb = vals.length →
        parseLoop now v fuel prev ts sb vals stack = .ok p →
        countQ p.SQL = p.Args.length := by
  intro fuel
  induction fuel with
  | zero =>
    intro ts hlen prev sb vals stack p _ _ hinv hp
    have hts : ts = [] := List.eq_nil_of_length_eq_zero (Nat.le_zero.mp hlen)
    subst hts
    simp only [parseLoop, loopBody] at hp
    split at hp
    · exact Except.noConfusion hp
    · cases hp
      simpa [countQ_trimSpace] using hinv
  | succ n ih =>
    intro ts hlen prev sb vals stack p hok hwf hinv hp
    cases ts with
    | nil =>
      simp only [parseLoop, loopBody] at hp
      split at hp
      · exact Except.noConfusion hp
      · cases hp
        simpa [countQ_trimSpace] using hinv
    | cons t rest =>
      obtain ⟨d, tl, toff⟩ := t
      have hlen2 : rest.length ≤ n := by
        simp only [List.length_cons] at hlen
        omega
      have hokr : streamOK rest = true := streamOK_cons hok
      obtain ⟨hwft, hwfr⟩ := wfStream_cons hwf
      cases d
      case keyword colName =>
        simp only [parseLoop, loopBody, clauseStep] at hp
        split at hp
        · exact Except.noConfusion hp
        split at hp
        · exact Except.noConfusion hp
        rename_i opTok rest2
        obtain ⟨dOp, opl, opo⟩ := opTok
        split at hp
        case _ opValue heqOp =>
          simp only at heqOp
          subst heqOp
          split at hp
          · exact Except.noConfusion hp
          rename_i op hOp
          split at hp
          · exact Except.noConfusion hp
          rename_i vTok rest3
          split at hp
          case _ hval =>
            split at hp
            case _ mName heqV =>
              -- macro path
              obtain ⟨dV, vl, vo⟩ := vTok
              simp only at heqV
              subst heqV
              split at hp
              case _ lpTok rest4 =>
                obtain ⟨dLp, lpl, lpo⟩ := lpTok
                split at hp
                case _ heqLp =>
                  simp only at heqLp
                  subst heqLp
                  split at hp
                  case _ w cp rest6 =>
                    split at hp
                    · exact Except.noConfusion hp
                    split at hp
                    · exact Except.noConfusion hp
                    rename_i cv q heqVSw
                    split at hp
                    · exact Except.noConfusion hp
                    rename_i h hMH
                    split at hp
                    · exact Except.noConfusion hp
                    rename_i transformed heqRun
                    -- shared facts for both continuation shapes
                    have hplain : isPlainValueTok w = true :=
                      tokArityOK_macroArg
                        (streamOK_head (streamOK_cons hokr)) rfl
                    have hbet : opValue = "between" → cv.length = 2 := by
                      intro hb
                      subst hb
                      obtain ⟨raw, l, hvd, _⟩ := tokArityOK_between (streamOK_head hokr)
                      exact absurd hvd (by simp)
                    have hident : colName.data.all isIdentChar = true :=
                      tokenWF_keyword hwft
                    have htr : transformed.length = cv.length := by
                      have : h = ageMacroRun := MacroHandlers_eq hMH
                      subst this
                      exact ageMacroRun_length heqRun
                    have hinv2 : countQ (writeWithSpaces sb (colName ++ " " ++ op.Value q)) =
                        (vals ++ transformed).length := by
                      rw [countQ_writeWithSpaces,
                        clause_countQ hOp (valueSwitch_count heqVSw hplain) hbet hident,
                        List.length_append]
                      omega
                    split at hp
                    · exact ih [] (Nat.zero_le n) _ _ _ _ _ rfl rfl hinv2 hp
                    rename_i x rest7
                    refine ih rest7 ?_ _ _ _ _ _ ?_ ?_ hinv2 hp
                    · simp only [List.length_cons] at hlen2
                      omega
                    · exact streamOK_cons (streamOK_cons (streamOK_cons
                        (streamOK_cons (streamOK_cons (streamOK_cons hokr)))))
                    · exact (wfStream_cons ((wfStream_cons ((wfStream_cons
                        ((wfStream_cons ((wfStream_cons ((wfStream_cons
                          hwfr).2)).2)).2)).2)).2)).2
                  case _ =>
                    exact Except.noConfusion hp
                case _ hne =>
                  exact Except.noConfusion hp
              case _ =>
                exact Except.noConfusion hp
            case _ hnm =>
              -- direct value path
              split at hp
              · exact Except.noConfusion hp
              rename_i cv q heqVS
              have hplain : isPlainValueTok vTok = true :=
                isPlain_of_isValue hval (fun m hm => hnm m hm)
              have hbet : opValue = "between" → cv.length = 2 := by
                intro hb
                subst hb
                obtain ⟨raw, l, hvd, hl2⟩ := tokArityOK_between (streamOK_head hokr)
                rw [valueSwitch_array_det heqVS hvd]
                exact hl2
              have hident : colName.data.all isIdentChar = true :=
                tokenWF_keyword hwft
              refine ih rest3 ?_ _ _ _ _ _ ?_ ?_ ?_ hp
              · simp only [List.length_cons] at hlen2
                omega
              · exact streamOK_cons (streamOK_cons hokr)
              · exact (wfStream_cons ((wfStream_cons hwfr).2)).2
              · rw [countQ_writeWithSpaces,
                  clause_countQ hOp (valueSwitch_count heqVS hplain) hbet hident,
                  List.length_append]
                omega
          case _ =>
            exact Except.noConfusion hp
        case _ hne =>
          exact Except.noConfusion hp
      case logical nm =>
        simp only [parseLoop, loopBody, logicalStep] at hp
        split at hp
        · exact Except.noConfusion hp
        split at hp
        · exact Except.noConfusion hp
        split at hp
        · exact Except.noConfusion hp
        refine ih rest hlen2 _ _ _ _ _ hokr hwfr ?_ hp
        rw [countQ_writeWithSpaces,
          show Token.valueString ⟨.logical nm, tl, toff⟩ = nm from rfl,
          countQ_logicalName (tokenWF_logical hwft)]
        omega
      all_goals (
        simp only [parseLoop, loopBody, defaultStep] at hp
        split at hp
        · split at hp
          · exact Except.noConfusion hp
          · refine ih rest hlen2 _ _ _ _ _ hokr hwfr ?_ hp
            rw [countQ_writeWithSpaces, countQ_lparenStr]
            omega
        · split at hp
          · split at hp
            · exact Except.noConfusion hp
            · refine ih rest hlen2 _ _ _ _ _ hokr hwfr ?_ hp
              rw [countQ_writeWithSpaces, countQ_rparenStr]
              omega
          · exact Except.noConfusion hp)


/-- A fixed wall-clock instant for concrete runs (macros read the clock;
plain comparisons never do). -/
def now0 : GoTime := ⟨2025, 1, 1, 0, 0, 0⟩

/-- The permissive column validator used in concrete runs. -/
def allCols : String → Bool := fun _ => true

/-- Modelled from the spec: the token stream of `name eq "John" and age gte 25`. -/
def tsNameAge : List Token :=
  [⟨.keyword "name", 1, 0⟩, ⟨.op "eq", 1, 5⟩, ⟨.strLit "\"John\"", 1, 8⟩,
   ⟨.logical "and", 1, 15⟩, ⟨.keyword "age", 1, 19⟩, ⟨.op "gte", 1, 23⟩,
   ⟨.intLit 25 "25", 1, 27⟩]

/-- Modelled from the spec: the token stream of `age between 25`. -/
def tsBetweenScalar : List Token :=
  [⟨.keyword "age", 1, 0⟩, ⟨.op "between", 1, 4⟩, ⟨.intLit 25 "25", 1, 12⟩]

/-- Modelled from the spec: the token stream of `score between [1,2,3]`
(JSON numbers decode as floats). -/
def tsBetweenThree : List Token :=
  [⟨.keyword "score", 1, 0⟩, ⟨.op "between", 1, 6⟩,
   ⟨.arrayLit "[1,2,3]" (some [.goFloat64 "1", .goFloat64 "2", .goFloat64 "3"]), 1, 14⟩]

/-- Modelled from the spec: the token stream of
`city eq "New York" and status in ["active","pending"]`. -/
def tsCityStatus : List Token :=
  [⟨.keyword "city", 1, 0⟩, ⟨.op "eq", 1, 5⟩, ⟨.strLit "\"New York\"", 1, 8⟩,
   ⟨.logical "and", 1, 19⟩, ⟨.keyword "status", 1, 23⟩, ⟨.op "in", 1, 30⟩,
   ⟨.arrayLit "[\"active\",\"pending\"]" (some [.goString "active", .goString "pending"]), 1, 33⟩]

/-- C2, as the specification states it, fails on the code: `age between 25`
is accepted, its SQL carries two placeholder markers, but only one
argument is returned (`MultiValueLimit` is never enforced). -/
theorem C2_cex_between_scalar :
    Parse now0 tsBetweenScalar allCols =
      .ok ⟨"age BETWEEN ? AND ?", [.goInt64 25]⟩ ∧
    countQ "age BETWEEN ? AND ?" = 2 ∧
    ([GoAny.goInt64 25] : List GoAny).length = 1 :=
  ⟨rfl, rfl, rfl⟩

/-- C2 (amended): for every accepted token stream in which each `between`
operator is immediately followed by an array literal decoding to exactly
two elements and each macro argument is a scalar or array value token
(`streamOK`), and which satisfies the tokenizer contract (`wfStream`),
the number of `?` placeholder markers in the returned SQL equals the
length of the returned argument list. -/
theorem C2_placeholder_count (now : GoTime) (toks : List Token)
    (v : String → Bool) (p : ParsedQuery)
    (hok : streamOK toks = true) (hwf : wfStream toks = true)
    (hp : Parse now toks v = .ok p) :
    countQ p.SQL = p.Args.length :=
  parseLoop_countQ now v toks.length toks le_rfl none "" [] [] p hok hwf rfl hp

/-- Witness for C2 at `city eq "New York" and status in ["active","pending"]`. -/
theorem C2_placeholder_count_witness :
    streamOK tsCityStatus = true ∧ wfStream tsCityStatus = true ∧
    Parse now0 tsCityStatus allCols =
      .ok ⟨"city = ?  and  status IN (?, ?)",
        [.goString "New York", .goString "active", .goString "pending"]⟩ ∧
    countQ "city = ?  and  status IN (?, ?)" =
      ([GoAny.goString "New York", .goString "active", .goString "pending"] : List GoAny).length :=
  ⟨by decide, by decide, rfl,
    C2_placeholder_count now0 tsCityStatus allCols
      ⟨"city = ?  and  status IN (?, ?)",
        [.goString "New York", .goString "active", .goString "pending"]⟩
      (by decide) (by decide) rfl⟩

/-- C3: the code accepts `age between 25` and emits `BETWEEN ? AND ?`
with a single argument instead of rejecting the arity mismatch with an
`InvalidOperation` error; likewise a three-element array is accepted. -/
theorem C3_between_arity_not_enforced :
    Parse now0 tsBetweenThree allCols =
      .ok ⟨"score BETWEEN ? AND ?",
        [.goFloat64 "1", .goFloat64 "2", .goFloat64 "3"]⟩ ∧
    (∀ e : ParseErr, Parse now0 tsBetweenThree allCols ≠ .error e) :=
  ⟨rfl, fun e h => by rw [show Parse now0 tsBetweenThree allCols =
    .ok ⟨"score BETWEEN ? AND ?",
      [.goFloat64 "1", .goFloat64 "2", .goFloat64 "3"]⟩ from rfl] at h; exact Except.noConfusion h⟩

/-- C5: the code returns `name = ?  and  age >= ?` — double spaces
between fragments and the logical keyword emitted verbatim in lower case
— not the documented `name = ? AND age >= ?`; the argument list matches
the claim. -/
theorem C5_scenario_actual_output :
    Parse now0 tsNameAge allCols =
      .ok ⟨"name = ?  and  age >= ?", [.goString "John", .goInt64 25]⟩ ∧
    "name = ?  and  age >= ?" ≠ "name = ? AND age >= ?" :=
  ⟨rfl, by decide⟩


/-- C9: in any loop state, an opening parenthesis whose immediately
following token is not a keyword (so also in `()` and `( )`, where it is
a closing parenthesis, and when an operator or logical keyword follows)
fails with `UnexpectedToken` at the token's position, and a closing
parenthesis reached with an empty parenthesis stack fails with the
closing `UnmatchedParenthesis` at the token's position. -/
theorem C9_paren_guards (now : GoTime) (v : String → Bool) (fuel : Nat)
    (prev : Option Token) (rest : List Token) (sb : String)
    (vals : List GoAny) (stack : List Nat) (tl toff : Nat) :
    (optIsKeyword rest.head? = false →
      parseLoop now v (fuel + 1) prev (⟨.lparen, tl, toff⟩ :: rest) sb vals stack =
        .error (.unexpectedToken "expression" tl toff)) ∧
    (parseLoop now v (fuel + 1) prev (⟨.rparen, tl, toff⟩ :: rest) sb vals [] =
      .error (.unmatchedParen "closing" tl toff)) := by
  constructor
  · intro hk
    simp [parseLoop, loopBody, defaultStep, Token.valueString, hk]
  · simp [parseLoop, loopBody, defaultStep, Token.valueString]

/-- Modelled from the spec: the token stream of `()` (and of `( )`, which
tokenizes to the same two tokens at shifted offsets). -/
def tsEmptyParens : List Token := [⟨.lparen, 1, 0⟩, ⟨.rparen, 1, 1⟩]

/-- Witness for C9: `()` fails with `UnexpectedToken`, and a bare `)`
fails with the closing `UnmatchedParenthesis`. -/
theorem C9_paren_guards_witness :
    optIsKeyword ([⟨.rparen, 1, 1⟩] : List Token).head? = false ∧
    parseLoop now0 allCols 2 none tsEmptyParens "" [] [] =
      .error (.unexpectedToken "expression" 1 0) ∧
    parseLoop now0 allCols 1 none [⟨.rparen, 1, 4⟩] "" [] [] =
      .error (.unmatchedParen "closing" 1 4) :=
  ⟨by decide,
    (C9_paren_guards now0 allCols 1 none [⟨.rparen, 1, 1⟩] "" [] [] 1 0).1 (by decide),
    (C9_paren_guards now0 allCols 0 none [] "" [] [] 1 4).2⟩

/-- C6 (amended): a logical keyword is rejected when adjacent to another
logical keyword, when its character offset is zero (the code's test for
"first token", which a first token preceded by whitespace does not meet),
or when it ends the stream; otherwise it is emitted verbatim and the
loop continues. -/
theorem C6_logical_placement (now : GoTime) (v : String → Bool) (fuel : Nat)
    (prev : Option Token) (rest : List Token) (sb : String)
    (vals : List GoAny) (stack : List Nat) (nm : String) (tl toff : Nat) :
    ((optIsLogical prev || optIsLogical rest.head?) = true →
      parseLoop now v (fuel + 1) prev (⟨.logical nm, tl, toff⟩ :: rest) sb vals stack =
        .error (.logicalToken "before or after a logical operation, you must have an expression or nested expression" 0 0)) ∧
    ((optIsLogical prev || optIsLogical rest.head?) = false → toff = 0 →
      parseLoop now v (fuel + 1) prev (⟨.logical nm, tl, toff⟩ :: rest) sb vals stack =
        .error (.logicalToken "cannot start with a logical operation" 0 0)) ∧
    ((optIsLogical prev || optIsLogical rest.head?) = false → toff ≠ 0 → rest = [] →
      parseLoop now v (fuel + 1) prev (⟨.logical nm, tl, toff⟩ :: rest) sb vals stack =
        .error (.logicalToken "cannot end with a logical operation" 0 0)) ∧
    ((optIsLogical prev || optIsLogical rest.head?) = false → toff ≠ 0 → rest ≠ [] →
      parseLoop now v (fuel + 1) prev (⟨.logical nm, tl, toff⟩ :: rest) sb vals stack =
        parseLoop now v fuel (some ⟨.logical nm, tl, toff⟩) rest
          (writeWithSpaces sb nm) vals stack) := by
  refine ⟨fun hadj => ?_, fun hadj h0 => ?_, fun hadj h0 hnil => ?_, fun hadj h0 hnil => ?_⟩
  · simp [parseLoop, loopBody, logicalStep, hadj]
  · simp [parseLoop, loopBody, logicalStep, hadj, h0]
  · subst hnil
    simp only [parseLoop, loopBody, logicalStep]
    rw [hadj]
    simp [h0]
  · cases rest with
    | nil => exact absurd rfl hnil
    | cons r rs =>
      simp only [parseLoop, loopBody, logicalStep, hadj, Bool.false_eq_true,
        if_false, h0, ite_false]
      rfl

/-- Modelled from the spec: the token stream of ` and x eq 1` — the
logical keyword is the first token but sits at character offset 1. -/
def tsLeadingAnd : List Token :=
  [⟨.logical "and", 1, 1⟩, ⟨.keyword "x", 1, 5⟩, ⟨.op "eq", 1, 7⟩,
   ⟨.intLit 1 "1", 1, 10⟩]

/-- C6, as the specification states it, fails on the code: a logical
keyword that is the first token of the stream but has a non-zero
character offset (the input begins with whitespace) is not rejected —
the parse succeeds and emits it. -/
theorem C6_cex_leading_logical :
    Parse now0 tsLeadingAnd allCols = .ok ⟨"and  x = ?", [.goInt64 1]⟩ ∧
    tsLeadingAnd.head?.map Token.data = some (.logical "and") :=
  ⟨rfl, rfl⟩

/-- Witness for C6 at concrete states: an adjacent pair errors, a
zero-offset logical errors, a trailing logical errors, and a well-placed
logical is emitted verbatim. -/
theorem C6_logical_placement_witness :
    ((optIsLogical (some ⟨.logical "or", 1, 7⟩) ||
        optIsLogical ([] : List Token).head?) = true ∧
      parseLoop now0 allCols 1 (some ⟨.logical "or", 1, 7⟩)
          [⟨.logical "or", 1, 10⟩] "x = ? " [.goInt64 1] [] =
        .error (.logicalToken "before or after a logical operation, you must have an expression or nested expression" 0 0)) ∧
    ((optIsLogical (none : Option Token) ||
        optIsLogical ([⟨.keyword "x", 1, 4⟩] : List Token).head?) = false ∧
      parseLoop now0 allCols 1 none
          [⟨.logical "and", 1, 0⟩, ⟨.keyword "x", 1, 4⟩] "" [] [] =
        .error (.logicalToken "cannot start with a logical operation" 0 0)) ∧
    parseLoop now0 allCols 1 (some ⟨.intLit 1 "1", 1, 5⟩)
        [⟨.logical "and", 1, 7⟩] "x = ? " [.goInt64 1] [] =
      .error (.logicalToken "cannot end with a logical operation" 0 0) ∧
    parseLoop now0 allCols 2 (some ⟨.intLit 1 "1", 1, 5⟩)
        [⟨.logical "and", 1, 7⟩, ⟨.keyword "y", 1, 11⟩] "x = ? " [.goInt64 1] [] =
      parseLoop now0 allCols 1 (some ⟨.logical "and", 1, 7⟩)
        [⟨.keyword "y", 1, 11⟩] (writeWithSpaces "x = ? " "and") [.goInt64 1] [] :=
  ⟨⟨by decide,
    (C6_logical_placement now0 allCols 0 (some ⟨.logical "or", 1, 7⟩)
      [⟨.logical "or", 1, 10⟩] "x = ? " [.goInt64 1] [] "or" 1 10).1 (by decide)⟩,
   ⟨by decide,
    (C6_logical_placement now0 allCols 0 none [⟨.keyword "x", 1, 4⟩]
      "" [] [] "and" 1 0).2.1 (by decide) rfl⟩,
   (C6_logical_placement now0 allCols 0 (some ⟨.intLit 1 "1", 1, 5⟩) []
      "x = ? " [.goInt64 1] [] "and" 1 7).2.2.1 (by decide) (by decide) rfl,
   (C6_logical_placement now0 allCols 1 (some ⟨.intLit 1 "1", 1, 5⟩)
      [⟨.keyword "y", 1, 11⟩] "x = ? " [.goInt64 1] [] "and" 1 7).2.2.2
     (by decide) (by decide) (by decide)⟩


/-- Modelled from the spec: the token stream of `x eq 1 or or y eq 2`
(all tokens on line 1). -/
def tsAdjacentOr : List Token :=
  [⟨.keyword "x", 1, 0⟩, ⟨.op "eq", 1, 2⟩, ⟨.intLit 1 "1", 1, 5⟩,
   ⟨.logical "or", 1, 7⟩, ⟨.logical "or", 1, 10⟩, ⟨.keyword "y", 1, 13⟩,
   ⟨.op "eq", 1, 15⟩, ⟨.intLit 2 "2", 1, 18⟩]

/-- C7, as the specification states it, fails on the code: the
misplaced-logical-operator error reports line 0, offset 0 even though
every token of the stream sits on line 1 (the error struct is built with
only its reason, leaving the Go zero values in the position fields). -/
theorem C7_cex_logical_position :
    Parse now0 tsAdjacentOr allCols =
      .error (.logicalToken "before or after a logical operation, you must have an expression or nested expression" 0 0) ∧
    tsAdjacentOr.all (fun t => t.line == 1) = true :=
  ⟨rfl, rfl⟩

/-- C7 (amended): the invalid-column error and the closing
unmatched-parenthesis error carry the triggering token's line and offset;
every misplaced-logical-operator error and the end-of-stream
unmatched-opening-parenthesis error carry the sentinel position (0, 0). -/
theorem C7_error_positions (now : GoTime) (v : String → Bool) (fuel : Nat)
    (prev : Option Token) (rest : List Token) (sb : String)
    (vals : List GoAny) (stack : List Nat) (colName nm : String)
    (m : Nat) (tl toff : Nat) :
    (v colName = false →
      parseLoop now v (fuel + 1) prev (⟨.keyword colName, tl, toff⟩ :: rest) sb vals stack =
        .error (.invalidColumn colName tl toff)) ∧
    (parseLoop now v (fuel + 1) prev (⟨.rparen, tl, toff⟩ :: rest) sb vals [] =
      .error (.unmatchedParen "closing" tl toff)) ∧
    ((optIsLogical prev || optIsLogical rest.head?) = true →
      parseLoop now v (fuel + 1) prev (⟨.logical nm, tl, toff⟩ :: rest) sb vals stack =
        .error (.logicalToken "before or after a logical operation, you must have an expression or nested expression" 0 0)) ∧
    (parseLoop now v fuel prev [] sb vals (m :: stack) =
      .error (.unmatchedParen "opening" 0 0)) := by
  refine ⟨fun hv => ?_, ?_, fun hadj => ?_, ?_⟩
  · simp [parseLoop, loopBody, clauseStep, hv]
  · simp [parseLoop, loopBody, defaultStep, Token.valueString]
  · simp [parseLoop, loopBody, logicalStep, hadj]
  · cases fuel <;> simp [parseLoop, loopBody]

/-- Witness for C7 at concrete states. -/
theorem C7_error_positions_witness :
    allCols "col" = false ∨
    ((fun _ => false : String → Bool) "col" = false ∧
      parseLoop now0 (fun _ => false) 1 none [⟨.keyword "col", 3, 9⟩] "" [] [] =
        .error (.invalidColumn "col" 3 9) ∧
      (optIsLogical (some ⟨.logical "and", 2, 4⟩) ||
        optIsLogical ([] : List Token).head?) = true ∧
      parseLoop now0 allCols 1 (some ⟨.logical "and", 2, 4⟩)
          [⟨.logical "or", 2, 8⟩] "" [] [] =
        .error (.logicalToken "before or after a logical operation, you must have an expression or nested expression" 0 0)) :=
  Or.inr ⟨rfl,
    (C7_error_positions now0 (fun _ => false) 0 none [] "" [] [] "col" "x" 0 3 9).1 rfl,
    by decide,
    (C7_error_positions now0 allCols 0 (some ⟨.logical "and", 2, 4⟩)
      [] "" [] [] "x" "or" 0 2 8).2.2.1 (by decide)⟩

/-- C8: an array literal given to a non-multi-value operator fails with
`InvalidOperation`; an array literal decoding to an empty list fails with
`InvalidOperation` (through one of the two array guards, depending on the
operator's arity class); an accepted `in` array renders one placeholder
per decoded element and appends all elements, in order, to the argument
list. -/
theorem C8_array_rules (now : GoTime) (v : String → Bool) (fuel : Nat)
    (prev : Option Token) (rest3 : List Token) (sb : String)
    (vals : List GoAny) (stack : List Nat) (colName raw : String)
    (tl toff opl opo vl vo : Nat) (hv : v colName = true) :
    (∀ (opValue : String) (op : OperationMeta) (dec : Option (List GoAny)),
      operationsMapped opValue = some op → op.IsMultiValue = false →
      parseLoop now v (fuel + 1) prev
        (⟨.keyword colName, tl, toff⟩ :: ⟨.op opValue, opl, opo⟩ ::
          ⟨.arrayLit raw dec, vl, vo⟩ :: rest3) sb vals stack =
        .error (.invalidOperation "multi-value array" colName tl toff)) ∧
    (∀ (opValue : String) (op : OperationMeta),
      operationsMapped opValue = some op →
      ∃ opn, parseLoop now v (fuel + 1) prev
        (⟨.keyword colName, tl, toff⟩ :: ⟨.op opValue, opl, opo⟩ ::
          ⟨.arrayLit raw (some []), vl, vo⟩ :: rest3) sb vals stack =
        .error (.invalidOperation opn colName tl toff)) ∧
    (∀ l : List GoAny, l ≠ [] →
      parseLoop now v (fuel + 1) prev
        (⟨.keyword colName, tl, toff⟩ :: ⟨.op "in", opl, opo⟩ ::
          ⟨.arrayLit raw (some l), vl, vo⟩ :: rest3) sb vals stack =
        parseLoop now v fuel (some ⟨.arrayLit raw (some l), vl, vo⟩) rest3
          (writeWithSpaces sb (colName ++ " " ++ ("IN (" ++ joinCommaQ l.length ++ ")")))
          (vals ++ l) stack ∧
      countQ ("IN (" ++ joinCommaQ l.length ++ ")") = l.length) := by
  refine ⟨fun opValue op dec hop hmv => ?_, fun opValue op hop => ?_, fun l hl => ⟨?_, countQ_inTemplate l.length⟩⟩
  · simp [parseLoop, loopBody, clauseStep, hv, hop, isValueTok, valueSwitch, hmv]
  · cases hm : op.IsMultiValue
    · exact ⟨"multi-value array", by
        simp [parseLoop, loopBody, clauseStep, hv, hop, isValueTok, valueSwitch, hm]⟩
    · exact ⟨"multi-value array empty arguments", by
        simp [parseLoop, loopBody, clauseStep, hv, hop, isValueTok, valueSwitch, hm]⟩
  · have hlz : ¬ (l.length = 0) := by simpa using hl
    simp [parseLoop, loopBody, clauseStep, hv, isValueTok, valueSwitch,
      operationsMapped, hlz]

/-- Witness for C8: `status eq ["active"]` is rejected, `in` with an
empty array is rejected, and `status in ["active","pending"]` renders
`IN (?, ?)` with both elements appended. -/
theorem C8_array_rules_witness :
    allCols "status" = true ∧
    parseLoop now0 allCols 1 none
      [⟨.keyword "status", 1, 0⟩, ⟨.op "eq", 1, 7⟩,
        ⟨.arrayLit "[\"active\"]" (some [.goString "active"]), 1, 10⟩] "" [] [] =
      .error (.invalidOperation "multi-value array" "status" 1 0) ∧
    (∃ opn, parseLoop now0 allCols 1 none
      [⟨.keyword "status", 1, 0⟩, ⟨.op "in", 1, 7⟩,
        ⟨.arrayLit "[]" (some []), 1, 10⟩] "" [] [] =
      .error (.invalidOperation opn "status" 1 0)) ∧
    parseLoop now0 allCols 1 none
      [⟨.keyword "status", 1, 0⟩, ⟨.op "in", 1, 7⟩,
        ⟨.arrayLit "[\"a\",\"p\"]" (some [.goString "a", .goString "p"]), 1, 10⟩] "" [] [] =
      parseLoop now0 allCols 0
        (some ⟨.arrayLit "[\"a\",\"p\"]" (some [.goString "a", .goString "p"]), 1, 10⟩) []
        (writeWithSpaces "" ("status" ++ " " ++ ("IN (" ++ joinCommaQ 2 ++ ")")))
        ([] ++ [GoAny.goString "a", GoAny.goString "p"]) [] :=
  ⟨rfl,
   (C8_array_rules now0 allCols 0 none [] "" [] [] "status" "[\"active\"]"
       1 0 1 7 1 10 rfl).1 "eq" ⟨fun _ => "= ?", false, 0⟩
       (some [.goString "active"]) rfl rfl,
   (C8_array_rules now0 allCols 0 none [] "" [] [] "status" "[]"
       1 0 1 7 1 10 rfl).2.1 "in"
       ⟨fun quotes => "IN (" ++ joinCommaQ quotes ++ ")", true, 0⟩ rfl,
   ((C8_array_rules now0 allCols 0 none [] "" [] [] "status" "[\"a\",\"p\"]"
       1 0 1 7 1 10 rfl).2.2 [GoAny.goString "a", GoAny.goString "p"]
       (by decide)).1⟩

lemma wrapInt64_eq_of_range {x : Int} (h₁ : -(2 ^ 63) ≤ x) (h₂ : x < 2 ^ 63) :
    wrapInt64 x = x := by
  unfold wrapInt64
  rw [Int.emod_eq_of_lt (by omega) (by omega)]
  omega

/-- Counterexample to C10 as stated: at the minimum `int64` value
N = -2^63 the Go product `-1*N` overflows back to -2^63, so `RunMacro`
returns now minus 2^63 years — not now minus N (that is, now plus 2^63)
years as the claim asserts for every `int64` argument. -/
theorem C10_cex_int64_min :
    ageMacroRun now0 "created_at" [.goInt64 (-(2 ^ 63))] =
      .ok [.goString (formatDateTime (now0.addYears (-(2 ^ 63))))] ∧
    formatDateTime (now0.addYears (-(2 ^ 63))) ≠
      formatDateTime (now0.addYears (-(-(2 ^ 63)))) := by
  have hw : wrapInt64 9223372036854775808 = (-9223372036854775808 : Int) := by decide
  refine ⟨?_, by decide⟩
  simp [ageMacroRun, ageSwitch, hw]

/-- C10 (amended): the age macro's type switch treats every numeric
dynamic type other than `int64` as zero years ago — the value is
discarded and the call returns the formatted current time — and
non-numeric values give `InvalidMacroValueError`; an `int64` value N
gives now shifted by the 64-bit-wrapped negation of N: now minus N years
whenever -2^63 < N, but now minus 2^63 years at the overflowing minimum
N = -2^63. -/
theorem C10_age_macro_type_switch (now : GoTime) (col : String) :
    (∀ n : Int,
      ageMacroRun now col [.goInt n] = .ok [.goString (formatDateTime now)] ∧
      ageMacroRun now col [.goInt16 n] = .ok [.goString (formatDateTime now)] ∧
      ageMacroRun now col [.goInt32 n] = .ok [.goString (formatDateTime now)]) ∧
    (∀ r : String,
      ageMacroRun now col [.goFloat32 r] = .ok [.goString (formatDateTime now)] ∧
      ageMacroRun now col [.goFloat64 r] = .ok [.goString (formatDateTime now)]) ∧
    (∀ n : Int, ageMacroRun now col [.goInt64 n] =
      .ok [.goString (formatDateTime (now.addYears (wrapInt64 (-n))))]) ∧
    (∀ n : Int, -(2 ^ 63) < n → n < 2 ^ 63 →
      ageMacroRun now col [.goInt64 n] =
        .ok [.goString (formatDateTime (now.addYears (-n)))]) ∧
    (ageMacroRun now col [.goInt64 (-(2 ^ 63))] =
      .ok [.goString (formatDateTime (now.addYears (-(2 ^ 63))))]) ∧
    (∀ str : String, ∃ d,
      ageMacroRun now col [.goString str] = .error (.invalidMacroValue col d)) ∧
    (∀ b : Bool, ∃ d,
      ageMacroRun now col [.goBool b] = .error (.invalidMacroValue col d)) ∧
    (∃ d, ageMacroRun now col [.goNull] = .error (.invalidMacroValue col d)) := by
  have hz : now.addYears 0 = now := by
    cases now
    simp [GoTime.addYears]
  have hw0 : wrapInt64 0 = 0 := by decide
  have hwmin : wrapInt64 9223372036854775808 = (-9223372036854775808 : Int) := by decide
  refine ⟨fun n => ⟨?_, ?_, ?_⟩, fun r => ⟨?_, ?_⟩, fun n => ?_,
    fun n h₁ h₂ => ?_, ?_,
    fun str => ⟨_, rfl⟩, fun b => ⟨_, rfl⟩, ⟨_, rfl⟩⟩
  · simp [ageMacroRun, ageSwitch, hz, hw0]
  · simp [ageMacroRun, ageSwitch, hz, hw0]
  · simp [ageMacroRun, ageSwitch, hz, hw0]
  · simp [ageMacroRun, ageSwitch, hz, hw0]
  · simp [ageMacroRun, ageSwitch, hz, hw0]
  · simp [ageMacroRun, ageSwitch]
  · simp [ageMacroRun, ageSwitch,
      wrapInt64_eq_of_range (x := -n) (by omega) (by omega)]
  · simp [ageMacroRun, ageSwitch, hwmin]

/-- Witness for C10: a concrete in-range `int64` age of 25 years shifts
the clock back exactly 25 years. -/
theorem C10_age_macro_type_switch_witness :
    ageMacroRun now0 "age" [.goInt64 25] =
      .ok [.goString (formatDateTime (now0.addYears (-25)))] :=
  (C10_age_macro_type_switch now0 "age").2.2.2.1 25 (by decide) (by decide)

lemma str_append_assoc (a b c : String) : a ++ b ++ c = a ++ (b ++ c) := by
  apply String.ext
  simp [String.data_append]

lemma str_length_data (s : String) : s.length = s.data.length := rfl

/-- The fixed templates the operator registry can render. -/
def TemplOK (tmpl : String) : Prop :=
  tmpl ∈ (["< ?", "<= ?", "= ?", ">= ?", "> ?", "<> ?", "BETWEEN ? AND ?"] : List String) ∨
  ∃ q, tmpl = "IN (" ++ joinCommaQ q ++ ")"

/-- The fragments the loop writes into the builder: the parentheses (the
closing one carrying its extra trailing space, as in the source), the
logical keywords, and `column template` with a single inner space and an
identifier column. -/
def EmittedUnit (u : String) : Prop :=
  u = "(" ∨ u = ") " ∨ u = "and" ∨ u = "or" ∨
  ∃ col tmpl, col.data ≠ [] ∧ col.data.all isIdentChar = true ∧ TemplOK tmpl ∧
    u = col ++ " " ++ tmpl

/-- Join of emitted fragments as the builder produces it: two spaces
between consecutive fragments (one trailing from the previous write, one
leading from the next). -/
def unitJoin : List String → String
  | [] => ""
  | [u] => u
  | u :: us => u ++ "  " ++ unitJoin us

lemma unitJoin_snoc : ∀ (us : List String) (u : String), us ≠ [] →
    unitJoin (us ++ [u]) = unitJoin us ++ "  " ++ u := by
  intro us
  induction us with
  | nil => intro u h; exact absurd rfl h
  | cons a us' ih =>
    intro u _
    cases us' with
    | nil => simp [unitJoin]
    | cons b us'' =>
      rw [show (a :: b :: us'') ++ [u] = a :: ((b :: us'') ++ [u]) from rfl]
      rw [show unitJoin (a :: ((b :: us'') ++ [u])) =
        a ++ "  " ++ unitJoin ((b :: us'') ++ [u]) from by
          cases us'' <;> rfl]
      rw [ih u (by simp), show unitJoin (a :: b :: us'') = a ++ "  " ++ unitJoin (b :: us'') from rfl]
      simp only [str_append_assoc]

/-- Builder invariant: empty, or the two-space join of emitted fragments
followed by the write's trailing space. -/
def SbForm (sb : String) : Prop :=
  sb = "" ∨ ∃ us, us ≠ [] ∧ (∀ u ∈ us, EmittedUnit u) ∧ sb = unitJoin us ++ " "

lemma sbForm_write {sb u : String} (hs : SbForm sb) (hu : EmittedUnit u) :
    SbForm (writeWithSpaces sb u) := by
  rcases hs with rfl | ⟨us, hne, hall, rfl⟩
  · right
    refine ⟨[u], by simp, by simpa using hu, ?_⟩
    apply String.ext
    simp [writeWithSpaces, unitJoin, String.data_append]
  · right
    refine ⟨us ++ [u], by simp, ?_, ?_⟩
    · intro x hx
      rcases List.mem_append.mp hx with hx | hx
      · exact hall x hx
      · rw [List.mem_singleton.mp hx]
        exact hu
    · have hpos : 0 < (unitJoin us ++ " ").length := by
        rw [str_length_data, String.data_append]
        simp
      rw [unitJoin_snoc us u hne, writeWithSpaces, if_pos hpos]
      apply String.ext
      simp [String.data_append]

lemma head?_dropWhile {α : Type} (p : α → Bool) :
    ∀ (m : List α) (c : α), (m.dropWhile p).head? = some c → p c = false := by
  intro m
  induction m with
  | nil => intro c h; exact Option.noConfusion h
  | cons a m' ih =>
    intro c h
    by_cases hp : p a
    · rw [List.dropWhile_cons_of_pos hp] at h
      exact ih c h
    · rw [List.dropWhile_cons_of_neg hp] at h
      cases h
      exact Bool.of_not_eq_true hp

lemma getLast?_dropWhile {α : Type} (p : α → Bool) :
    ∀ (m : List α), m.dropWhile p ≠ [] →
      (m.dropWhile p).getLast? = m.getLast? := by
  intro m
  induction m with
  | nil => intro h; exact absurd rfl h
  | cons a m' ih =>
    intro h
    by_cases hp : p a
    · rw [List.dropWhile_cons_of_pos hp] at h ⊢
      rw [ih h]
      cases m' with
      | nil => exact absurd rfl h
      | cons b m'' => rw [List.getLast?_cons_cons]
    · rw [List.dropWhile_cons_of_neg hp]

/-- The string has no whitespace at either edge. -/
def noEdgeSpace (s : String) : Prop :=
  (∀ c, s.data.head? = some c → isGoSpace c = false) ∧
  (∀ c, s.data.getLast? = some c → isGoSpace c = false)

lemma noEdgeSpace_trim (s : String) : noEdgeSpace (trimSpace s) := by
  constructor
  · intro c hc
    rw [show (trimSpace s).data = trimSpaceList s.data from rfl] at hc
    unfold trimSpaceList at hc
    rw [List.head?_reverse] at hc
    rcases he : ((s.data.dropWhile isGoSpace).reverse.dropWhile isGoSpace) with _ | ⟨x, xs⟩
    · rw [he] at hc
      exact Option.noConfusion hc
    · rw [getLast?_dropWhile isGoSpace _ (by rw [he]; exact List.cons_ne_nil x xs),
        List.getLast?_reverse] at hc
      exact head?_dropWhile isGoSpace _ c hc
  · intro c hc
    rw [show (trimSpace s).data = trimSpaceList s.data from rfl] at hc
    unfold trimSpaceList at hc
    rw [List.getLast?_reverse] at hc
    exact head?_dropWhile isGoSpace _ c hc

lemma dropWhile_snoc_space : ∀ l : List Char,
    (l ++ [' ']).dropWhile isGoSpace =
      if l.dropWhile isGoSpace = [] then [] else l.dropWhile isGoSpace ++ [' '] := by
  intro l
  induction l with
  | nil => rfl
  | cons a l' ih =>
    by_cases hp : isGoSpace a
    · rw [List.cons_append, List.dropWhile_cons_of_pos hp,
        List.dropWhile_cons_of_pos hp, ih]
    · rw [List.cons_append, List.dropWhile_cons_of_neg hp,
        List.dropWhile_cons_of_neg hp, if_neg (List.cons_ne_nil a l'),
        List.cons_append]

lemma trimSpace_snoc_space (s : String) : trimSpace (s ++ " ") = trimSpace s := by
  apply String.ext
  rw [show (trimSpace (s ++ " ")).data = trimSpaceList (s ++ " ").data from rfl,
    show (trimSpace s).data = trimSpaceList s.data from rfl,
    show (s ++ " ").data = s.data ++ [' '] from by simp [String.data_append]]
  unfold trimSpaceList
  rw [dropWhile_snoc_space]
  split
  · rename_i he
    rw [he]
  · rw [show ∀ x : List Char, (x ++ [' ']).reverse = ' ' :: x.reverse from fun x => by simp,
      List.dropWhile_cons_of_pos (by rfl)]


lemma tokenWF_keyword_nonempty {name : String} {tl toff : Nat}
    (h : tokenWF ⟨.keyword name, tl, toff⟩ = true) : name.data ≠ [] := by
  intro he
  simp [tokenWF, he] at h

lemma scalar_template_mem {f : Nat → String}
    (h : f ∈ ([fun _ => "< ?", fun _ => "<= ?", fun _ => "= ?",
      fun _ => ">= ?", fun _ => "> ?", fun _ => "<> ?"] : List (Nat → String)))
    (q : Nat) :
    f q ∈ (["< ?", "<= ?", "= ?", ">= ?", "> ?", "<> ?", "BETWEEN ? AND ?"]
      : List String) := by
  simp only [List.mem_cons, List.not_mem_nil, or_false] at h
  rcases h with h | h | h | h | h | h <;> (subst h; simp)

lemma emittedUnit_clause {colName opValue : String} {op : OperationMeta} {q : Nat}
    (hOp : operationsMapped opValue = some op)
    (hne : colName.data ≠ []) (hident : colName.data.all isIdentChar = true) :
    EmittedUnit (colName ++ " " ++ op.Value q) := by
  refine Or.inr (Or.inr (Or.inr (Or.inr ⟨colName, op.Value q, hne, hident, ?_, rfl⟩)))
  rcases operationsMapped_spec hOp with ⟨_, _, hval⟩ | ⟨_, _, hval⟩ | ⟨_, hval⟩
  · rw [hval]
    exact Or.inr ⟨q, rfl⟩
  · rw [hval]
    exact Or.inl (by simp)
  · exact Or.inl (scalar_template_mem hval q)

lemma emittedUnit_logical {name : String}
    (h : (name == "and" || name == "or") = true) : EmittedUnit name := by
  rcases Bool.or_eq_true_iff.mp h with h1 | h1
  · rw [eq_of_beq h1]
    exact Or.inr (Or.inr (Or.inl rfl))
  · rw [eq_of_beq h1]
    exact Or.inr (Or.inr (Or.inr (Or.inl rfl)))

/-- Output-shape invariant of the token loop: under the tokenizer
contract, a successful run's SQL is the trimmed two-space join of
emitted fragments. -/
lemma parseLoop_units (now : GoTime) (v : String → Bool) :
    ∀ (fuel : Nat) (ts : List Token), ts.length ≤ fuel →
      ∀ (prev : Option Token) (sb : String) (vals : List GoAny)
        (stack : List Nat) (p : ParsedQuery),
        wfStream ts = true → SbForm sb →
        parseLoop now v fuel prev ts sb vals stack = .ok p →
        ∃ us, (∀ u ∈ us, EmittedUnit u) ∧ p.SQL = trimSpace (unitJoin us) := by
  intro fuel
  induction fuel with
  | zero =>
    intro ts hlen prev sb vals stack p _ hsb hp
    have hts : ts = [] := List.eq_nil_of_length_eq_zero (Nat.le_zero.mp hlen)
    subst hts
    simp only [parseLoop, loopBody] at hp
    split at hp
    · exact Except.noConfusion hp
    · cases hp
      rcases hsb with rfl | ⟨us, _, hall, rfl⟩
      · exact ⟨[], by simp, rfl⟩
      · exact ⟨us, hall, trimSpace_snoc_space (unitJoin us)⟩
  | succ n ih =>
    intro ts hlen prev sb vals stack p hwf hsb hp
    cases ts with
    | nil =>
      simp only [parseLoop, loopBody] at hp
      split at hp
      · exact Except.noConfusion hp
      · cases hp
        rcases hsb with rfl | ⟨us, _, hall, rfl⟩
        · exact ⟨[], by simp, rfl⟩
        · exact ⟨us, hall, trimSpace_snoc_space (unitJoin us)⟩
    | cons t rest =>
      obtain ⟨d, tl, toff⟩ := t
      have hlen2 : rest.length ≤ n := by
        simp only [List.length_cons] at hlen
        omega
      obtain ⟨hwft, hwfr⟩ := wfStream_cons hwf
      cases d
      case keyword colName =>
        simp only [parseLoop, loopBody, clauseStep] at hp
        split at hp
        · exact Except.noConfusion hp
        split at hp
        · exact Except.noConfusion hp
        rename_i opTok rest2
        obtain ⟨dOp, opl, opo⟩ := opTok
        split at hp
        case _ opValue heqOp =>
          simp only at heqOp
          subst heqOp
          split at hp
          · exact Except.noConfusion hp
          rename_i op hOp
          split at hp
          · exact Except.noConfusion hp
          rename_i vTok rest3
          split at hp
          case _ hval =>
            have hunit : ∀ q : Nat, EmittedUnit (colName ++ " " ++ op.Value q) :=
              fun q => emittedUnit_clause hOp (tokenWF_keyword_nonempty hwft)
                (tokenWF_keyword hwft)
            split at hp
            case _ mName heqV =>
              obtain ⟨dV, vl, vo⟩ := vTok
              simp only at heqV
              subst heqV
              split at hp
              case _ lpTok rest4 =>
                obtain ⟨dLp, lpl, lpo⟩ := lpTok
                split at hp
                case _ heqLp =>
                  simp only at heqLp
                  subst heqLp
                  split at hp
                  case _ w cp rest6 =>
                    split at hp
                    · exact Except.noConfusion hp
                    split at hp
                    · exact Except.noConfusion hp
                    rename_i cv q heqVSw
                    split at hp
                    · exact Except.noConfusion hp
                    rename_i h hMH
                    split at hp
                    · exact Except.noConfusion hp
                    rename_i transformed heqRun
                    split at hp
                    · exact ih [] (Nat.zero_le n) _ _ _ _ _ rfl
                        (sbForm_write hsb (hunit q)) hp
                    rename_i x rest7
                    refine ih rest7 ?_ _ _ _ _ _ ?_ (sbForm_write hsb (hunit q)) hp
                    · simp only [List.length_cons] at hlen2
                      omega
                    · exact (wfStream_cons ((wfStream_cons ((wfStream_cons
                        ((wfStream_cons ((wfStream_cons ((wfStream_cons
                          hwfr).2)).2)).2)).2)).2)).2
                  case _ =>
                    exact Except.noConfusion hp
                case _ =>
                  exact Except.noConfusion hp
              case _ =>
                exact Except.noConfusion hp
            case _ hnm =>
              split at hp
              · exact Except.noConfusion hp
              rename_i cv q heqVS
              refine ih rest3 ?_ _ _ _ _ _ ?_ (sbForm_write hsb (hunit q)) hp
              · simp only [List.length_cons] at hlen2
                omega
              · exact (wfStream_cons ((wfStream_cons hwfr).2)).2
          case _ =>
            exact Except.noConfusion hp
        case _ =>
          exact Except.noConfusion hp
      case logical nm =>
        simp only [parseLoop, loopBody, logicalStep] at hp
        split at hp
        · exact Except.noConfusion hp
        split at hp
        · exact Except.noConfusion hp
        split at hp
        · exact Except.noConfusion hp
        refine ih rest hlen2 _ _ _ _ _ hwfr ?_ hp
        rw [show Token.valueString ⟨.logical nm, tl, toff⟩ = nm from rfl]
        exact sbForm_write hsb (emittedUnit_logical (tokenWF_logical hwft))
      all_goals (
        simp only [parseLoop, loopBody, defaultStep] at hp
        split at hp
        · split at hp
          · exact Except.noConfusion hp
          · exact ih rest hlen2 _ _ _ _ _ hwfr
              (sbForm_write hsb (Or.inl rfl)) hp
        · split at hp
          · split at hp
            · exact Except.noConfusion hp
            · exact ih rest hlen2 _ _ _ _ _ hwfr
                (sbForm_write hsb (Or.inr (Or.inl rfl))) hp
          · exact Except.noConfusion hp)


/-- Whether the character list contains two adjacent spaces. -/
def hasAdjacentSpaces : List Char → Bool
  | c :: d :: rest => (c = ' ' && d = ' ') || hasAdjacentSpaces (d :: rest)
  | _ => false

/-- Modelled from the spec: the token stream of `a eq 1 and b eq 2`. -/
def tsTwoClauses : List Token :=
  [⟨.keyword "a", 1, 0⟩, ⟨.op "eq", 1, 2⟩, ⟨.intLit 1 "1", 1, 5⟩,
   ⟨.logical "and", 1, 7⟩, ⟨.keyword "b", 1, 11⟩, ⟨.op "eq", 1, 13⟩,
   ⟨.intLit 2 "2", 1, 16⟩]

/-- Modelled from the spec: the token stream of `a eq 1`. -/
def tsSingleClause : List Token :=
  [⟨.keyword "a", 1, 0⟩, ⟨.op "eq", 1, 2⟩, ⟨.intLit 1 "1", 1, 5⟩]

/-- C4, as the specification states it, fails on the code: the accepted
input `a eq 1 and b eq 2` yields SQL containing two adjacent spaces, so
consecutive emitted tokens are not separated by exactly one space. -/
theorem C4_cex_double_space :
    Parse now0 tsTwoClauses allCols =
      .ok ⟨"a = ?  and  b = ?", [.goInt64 1, .goInt64 2]⟩ ∧
    hasAdjacentSpaces ("a = ?  and  b = ?").data = true :=
  ⟨rfl, rfl⟩

/-- C4 (amended): for every accepted input satisfying the tokenizer
contract, the returned SQL has no leading or trailing whitespace and is
the two-space-separated join of the emitted fragments, trimmed; each
fragment is `(`, `) ` (with its extra trailing space), a logical keyword,
or `column template` with a single inner space — so tokens inside one
fragment are single-space separated while consecutive fragments are two
(after a closing parenthesis, three) spaces apart. -/
theorem C4_whitespace_shape (now : GoTime) (toks : List Token)
    (v : String → Bool) (p : ParsedQuery)
    (hwf : wfStream toks = true) (hp : Parse now toks v = .ok p) :
    noEdgeSpace p.SQL ∧
    ∃ us, (∀ u ∈ us, EmittedUnit u) ∧ p.SQL = trimSpace (unitJoin us) := by
  have h := parseLoop_units now v toks.length toks le_rfl none "" [] [] p hwf
    (Or.inl rfl) hp
  refine ⟨?_, h⟩
  obtain ⟨us, _, hq⟩ := h
  rw [hq]
  exact noEdgeSpace_trim _

/-- Witness for C4 at `a eq 1`. -/
theorem C4_whitespace_shape_witness :
    wfStream tsSingleClause = true ∧
    Parse now0 tsSingleClause allCols = .ok ⟨"a = ?", [.goInt64 1]⟩ ∧
    (noEdgeSpace ("a = ?" : String) ∧
      ∃ us, (∀ u ∈ us, EmittedUnit u) ∧
        ("a = ?" : String) = trimSpace (unitJoin us)) :=
  ⟨by decide, rfl,
    C4_whitespace_shape now0 tsSingleClause allCols ⟨"a = ?", [.goInt64 1]⟩
      (by decide) rfl⟩


/-- Token-data equivalence freeing quoted-string payloads: two data are
equivalent when they are equal, or both are quoted-string tokens with
arbitrary (possibly different) raw contents. -/
def dataEquiv (a b : TokenData) : Bool :=
  match a, b with
  | .strLit _, .strLit _ => true
  | a, b => decide (a = b)

/-- Token equivalence: equivalent data, and agreement on whether the
character offset is zero (the only positional fact the loop branches
on). -/
def tokEquiv (a b : Token) : Bool :=
  dataEquiv a.data b.data && decide ((a.offset = 0) ↔ (b.offset = 0))

/-- Pointwise token equivalence of streams. -/
def streamEquiv : List Token → List Token → Bool
  | [], [] => true
  | a :: as, b :: bs => tokEquiv a b && streamEquiv as bs
  | _, _ => false

/-- Relation between two compile outcomes: both fail, or both succeed
with identical SQL text and equally many arguments. -/
def accRel : Res → Res → Prop
  | .error _, .error _ => True
  | .ok p, .ok q => p.SQL = q.SQL ∧ p.Args.length = q.Args.length
  | _, _ => False

/-- Same Go dynamic type. -/
def sameShape (a b : GoAny) : Prop := goAnyTypeName a = goAnyTypeName b

lemma dataEquiv_refl (d : TokenData) : dataEquiv d d = true := by
  cases d <;> simp [dataEquiv]

lemma dataEquiv_cases {a b : TokenData} (h : dataEquiv a b = true) :
    (∃ r₁ r₂, a = .strLit r₁ ∧ b = .strLit r₂) ∨ a = b := by
  cases a <;> cases b <;>
    first
      | exact Or.inl ⟨_, _, rfl, rfl⟩
      | exact Or.inr (of_decide_eq_true h)

lemma tokEquiv_parts {a b : Token} (h : tokEquiv a b = true) :
    dataEquiv a.data b.data = true ∧ ((a.offset = 0) ↔ (b.offset = 0)) := by
  unfold tokEquiv at h
  obtain ⟨h1, h2⟩ := Bool.and_eq_true_iff.mp h
  exact ⟨h1, of_decide_eq_true h2⟩

lemma streamEquiv_parts {a b : Token} {as bs : List Token}
    (h : streamEquiv (a :: as) (b :: bs) = true) :
    tokEquiv a b = true ∧ streamEquiv as bs = true := by
  unfold streamEquiv at h
  exact Bool.and_eq_true_iff.mp h

lemma streamEquiv_nil_left {bs : List Token}
    (h : streamEquiv [] bs = true) : bs = [] := by
  cases bs with
  | nil => rfl
  | cons b bs' => exact Bool.noConfusion h

lemma streamEquiv_cons_left {a : Token} {as bs : List Token}
    (h : streamEquiv (a :: as) bs = true) : ∃ b bs', bs = b :: bs' := by
  cases bs with
  | nil => exact Bool.noConfusion h
  | cons b bs' => exact ⟨b, bs', rfl⟩

lemma optIsLogical_data {d : TokenData} {l₁ o₁ l₂ o₂ : Nat} :
    optIsLogical (some ⟨d, l₁, o₁⟩) = optIsLogical (some ⟨d, l₂, o₂⟩) := by
  cases d <;> rfl

lemma optIsLogical_equivData {d₁ d₂ : TokenData} (h : dataEquiv d₁ d₂ = true)
    {l₁ o₁ l₂ o₂ : Nat} :
    optIsLogical (some ⟨d₁, l₁, o₁⟩) = optIsLogical (some ⟨d₂, l₂, o₂⟩) := by
  rcases dataEquiv_cases h with ⟨r₁, r₂, rfl, rfl⟩ | rfl
  · rfl
  · exact optIsLogical_data

lemma optIsRparen_equivData {d₁ d₂ : TokenData} (h : dataEquiv d₁ d₂ = true)
    {l₁ o₁ l₂ o₂ : Nat} :
    optIsRparen (some ⟨d₁, l₁, o₁⟩) = optIsRparen (some ⟨d₂, l₂, o₂⟩) := by
  rcases dataEquiv_cases h with ⟨r₁, r₂, rfl, rfl⟩ | rfl
  · rfl
  · cases d₁ <;> rfl

lemma streamEquiv_head_logical {as bs : List Token}
    (h : streamEquiv as bs = true) :
    optIsLogical as.head? = optIsLogical bs.head? := by
  cases as with
  | nil => rw [streamEquiv_nil_left h]
  | cons a as' =>
    obtain ⟨b, bs', rfl⟩ := streamEquiv_cons_left h
    obtain ⟨da, la, oa⟩ := a
    obtain ⟨db, lb, ob⟩ := b
    exact optIsLogical_equivData (tokEquiv_parts (streamEquiv_parts h).1).1

lemma optIsKeyword_equivData {d₁ d₂ : TokenData} (h : dataEquiv d₁ d₂ = true)
    {l₁ o₁ l₂ o₂ : Nat} :
    optIsKeyword (some ⟨d₁, l₁, o₁⟩) = optIsKeyword (some ⟨d₂, l₂, o₂⟩) := by
  rcases dataEquiv_cases h with ⟨r₁, r₂, rfl, rfl⟩ | rfl
  · rfl
  · cases d₁ <;> rfl

lemma streamEquiv_head_keyword {as bs : List Token}
    (h : streamEquiv as bs = true) :
    optIsKeyword as.head? = optIsKeyword bs.head? := by
  cases as with
  | nil => rw [streamEquiv_nil_left h]
  | cons a as' =>
    obtain ⟨b, bs', rfl⟩ := streamEquiv_cons_left h
    obtain ⟨da, la, oa⟩ := a
    obtain ⟨db, lb, ob⟩ := b
    exact optIsKeyword_equivData (tokEquiv_parts (streamEquiv_parts h).1).1

lemma isValueTok_equivData {d₁ d₂ : TokenData} (h : dataEquiv d₁ d₂ = true)
    {l₁ o₁ l₂ o₂ : Nat} :
    isValueTok ⟨d₁, l₁, o₁⟩ = isValueTok ⟨d₂, l₂, o₂⟩ := by
  rcases dataEquiv_cases h with ⟨r₁, r₂, rfl, rfl⟩ | rfl
  · rfl
  · cases d₁ <;> rfl

lemma tokenWF_strLit_ne {raw : String} {tl toff : Nat}
    (h : tokenWF ⟨.strLit raw, tl, toff⟩ = true) :
    raw ≠ "(" ∧ raw ≠ ")" := by
  constructor <;> (intro he; subst he; simp [tokenWF] at h)

lemma sameShape_list_refl (l : List GoAny) : List.Forall₂ sameShape l l :=
  List.forall₂_same.mpr (fun _ _ => rfl)

lemma ageSwitch_rel (col₁ col₂ : String) {v₁ v₂ : GoAny} (h : sameShape v₁ v₂) :
    (∃ e₁ e₂, ageSwitch col₁ v₁ = .error e₁ ∧ ageSwitch col₂ v₂ = .error e₂) ∨
    (∃ n₁ n₂, ageSwitch col₁ v₁ = .ok n₁ ∧ ageSwitch col₂ v₂ = .ok n₂) := by
  cases v₁ <;> cases v₂ <;>
    first
      | (simp [sameShape, goAnyTypeName] at h; done)
      | exact Or.inl ⟨_, _, rfl, rfl⟩
      | exact Or.inr ⟨_, _, rfl, rfl⟩

lemma ageMacroRun_rel (now₁ now₂ : GoTime) (col₁ col₂ : String) :
    ∀ {args₁ args₂ : List GoAny}, List.Forall₂ sameShape args₁ args₂ →
      (∃ e₁ e₂, ageMacroRun now₁ col₁ args₁ = .error e₁ ∧
        ageMacroRun now₂ col₂ args₂ = .error e₂) ∨
      (∃ o₁ o₂, ageMacroRun now₁ col₁ args₁ = .ok o₁ ∧
        ageMacroRun now₂ col₂ args₂ = .ok o₂ ∧ o₁.length = o₂.length) := by
  intro args₁ args₂ h
  induction h with
  | nil => exact Or.inr ⟨[], [], rfl, rfl, rfl⟩
  | cons hv hrest ih =>
    rcases ageSwitch_rel col₁ col₂ hv with
      ⟨e₁, e₂, hs₁, hs₂⟩ | ⟨n₁, n₂, hs₁, hs₂⟩
    · exact Or.inl ⟨e₁, e₂, by simp [ageMacroRun, hs₁], by simp [ageMacroRun, hs₂]⟩
    · rcases ih with ⟨e₁, e₂, hr₁, hr₂⟩ | ⟨o₁, o₂, hr₁, hr₂, hlen⟩
      · exact Or.inl ⟨e₁, e₂, by simp [ageMacroRun, hs₁, hr₁], by simp [ageMacroRun, hs₂, hr₂]⟩
      · exact Or.inr ⟨.goString (formatDateTime (now₁.addYears (wrapInt64 (-n₁)))) :: o₁,
          .goString (formatDateTime (now₂.addYears (wrapInt64 (-n₂)))) :: o₂,
          by simp [ageMacroRun, hs₁, hr₁], by simp [ageMacroRun, hs₂, hr₂],
          by simp [hlen]⟩

lemma valueSwitch_rel (w₁ w₂ : Token) (op : OperationMeta) (col₁ col₂ : String)
    (l₁ c₁ l₂ c₂ : Nat) (h : dataEquiv w₁.data w₂.data = true) :
    (∃ e₁ e₂, valueSwitch w₁ op col₁ l₁ c₁ = .error e₁ ∧
      valueSwitch w₂ op col₂ l₂ c₂ = .error e₂) ∨
    (∃ cv₁ cv₂ q, valueSwitch w₁ op col₁ l₁ c₁ = .ok (cv₁, q) ∧
      valueSwitch w₂ op col₂ l₂ c₂ = .ok (cv₂, q) ∧
      List.Forall₂ sameShape cv₁ cv₂) := by
  obtain ⟨d₁, wl₁, wo₁⟩ := w₁
  obtain ⟨d₂, wl₂, wo₂⟩ := w₂
  rcases dataEquiv_cases h with ⟨r₁, r₂, h₁, h₂⟩ | heq
  · rw [show Token.data ⟨d₁, wl₁, wo₁⟩ = d₁ from rfl] at h₁
    rw [show Token.data ⟨d₂, wl₂, wo₂⟩ = d₂ from rfl] at h₂
    subst h₁
    subst h₂
    exact Or.inr ⟨_, _, 1, rfl, rfl, List.Forall₂.cons rfl List.Forall₂.nil⟩
  · rw [show Token.data ⟨d₁, wl₁, wo₁⟩ = d₁ from rfl,
      show Token.data ⟨d₂, wl₂, wo₂⟩ = d₂ from rfl] at heq
    subst heq
    cases d₁ with
    | arrayLit raw dec =>
      simp only [valueSwitch]
      split
      · exact Or.inl ⟨_, _, rfl, rfl⟩
      · cases dec with
        | none => exact Or.inl ⟨_, _, rfl, rfl⟩
        | some l =>
          simp only
          split
          · exact Or.inl ⟨_, _, rfl, rfl⟩
          · exact Or.inr ⟨l, l, l.length, rfl, rfl, sameShape_list_refl l⟩
    | floatLit repr => exact Or.inr ⟨_, _, 1, rfl, rfl, List.Forall₂.cons rfl List.Forall₂.nil⟩
    | intLit nn raw => exact Or.inr ⟨_, _, 1, rfl, rfl, List.Forall₂.cons rfl List.Forall₂.nil⟩
    | strLit raw => exact Or.inr ⟨_, _, 1, rfl, rfl, List.Forall₂.cons rfl List.Forall₂.nil⟩
    | keyword nm => exact Or.inr ⟨[], [], 1, rfl, rfl, List.Forall₂.nil⟩
    | op nm => exact Or.inr ⟨[], [], 1, rfl, rfl, List.Forall₂.nil⟩
    | logical nm => exact Or.inr ⟨[], [], 1, rfl, rfl, List.Forall₂.nil⟩
    | lparen => exact Or.inr ⟨[], [], 1, rfl, rfl, List.Forall₂.nil⟩
    | rparen => exact Or.inr ⟨[], [], 1, rfl, rfl, List.Forall₂.nil⟩
    | macroName nm => exact Or.inr ⟨[], [], 1, rfl, rfl, List.Forall₂.nil⟩
    | undef raw => exact Or.inr ⟨[], [], 1, rfl, rfl, List.Forall₂.nil⟩


/-- Noninterference of quoted-string payloads (and of the wall clock)
with the compiled SQL: running the loop on two equivalent, well-formed
streams with equally many collected arguments either fails on both or
succeeds on both with identical SQL text and equally many arguments. -/
lemma parseLoop_rel (v : String → Bool) (now₁ now₂ : GoTime) :
    ∀ (fuel : Nat) (ts₁ ts₂ : List Token), ts₁.length ≤ fuel →
      ∀ (prev₁ prev₂ : Option Token) (sb : String) (vals₁ vals₂ : List GoAny)
        (stack : List Nat),
        streamEquiv ts₁ ts₂ = true →
        wfStream ts₁ = true → wfStream ts₂ = true →
        optIsLogical prev₁ = optIsLogical prev₂ →
        vals₁.length = vals₂.length →
        accRel (parseLoop now₁ v fuel prev₁ ts₁ sb vals₁ stack)
               (parseLoop now₂ v fuel prev₂ ts₂ sb vals₂ stack) := by
  intro fuel
  induction fuel with
  | zero =>
    intro ts₁ ts₂ hlen prev₁ prev₂ sb vals₁ vals₂ stack heqv _ _ _ hvals
    have h1 : ts₁ = [] := List.eq_nil_of_length_eq_zero (Nat.le_zero.mp hlen)
    subst h1
    rw [streamEquiv_nil_left heqv]
    by_cases hst : stack.length > 0
    · simp only [parseLoop, loopBody, if_pos hst]
      trivial
    · simp only [parseLoop, loopBody, if_neg hst]
      exact ⟨rfl, hvals⟩
  | succ n ih =>
    intro ts₁ ts₂ hlen prev₁ prev₂ sb vals₁ vals₂ stack heqv hwf₁ hwf₂ hprev hvals
    cases ts₁ with
    | nil =>
      rw [streamEquiv_nil_left heqv]
      by_cases hst : stack.length > 0
      · simp only [parseLoop, loopBody, if_pos hst]
        trivial
      · simp only [parseLoop, loopBody, if_neg hst]
        exact ⟨rfl, hvals⟩
    | cons t₁ rest₁ =>
      obtain ⟨t₂, rest₂, rfl⟩ := streamEquiv_cons_left heqv
      obtain ⟨ht, hrest⟩ := streamEquiv_parts heqv
      obtain ⟨hwf₁t, hwf₁r⟩ := wfStream_cons hwf₁
      obtain ⟨hwf₂t, hwf₂r⟩ := wfStream_cons hwf₂
      have hlen2 : rest₁.length ≤ n := by
        simp only [List.length_cons] at hlen
        omega
      obtain ⟨d₁, l₁, o₁⟩ := t₁
      obtain ⟨d₂, l₂, o₂⟩ := t₂
      obtain ⟨hdeq, hoff⟩ := tokEquiv_parts ht
      rw [show Token.data ⟨d₁, l₁, o₁⟩ = d₁ from rfl,
        show Token.data ⟨d₂, l₂, o₂⟩ = d₂ from rfl] at hdeq
      rw [show Token.offset ⟨d₁, l₁, o₁⟩ = o₁ from rfl,
        show Token.offset ⟨d₂, l₂, o₂⟩ = o₂ from rfl] at hoff
      rcases dataEquiv_cases hdeq with ⟨r₁, r₂, rfl, rfl⟩ | rfl
      · obtain ⟨hne₁l, hne₁r⟩ := tokenWF_strLit_ne hwf₁t
        obtain ⟨hne₂l, hne₂r⟩ := tokenWF_strLit_ne hwf₂t
        simp only [parseLoop, loopBody, defaultStep,
          show Token.valueString ⟨.strLit r₁, l₁, o₁⟩ = r₁ from rfl,
          show Token.valueString ⟨.strLit r₂, l₂, o₂⟩ = r₂ from rfl,
          if_neg hne₁l, if_neg hne₁r, if_neg hne₂l, if_neg hne₂r]
        trivial
      · cases d₁
        case keyword colName =>
          simp only [parseLoop, loopBody, clauseStep]
          split
          · trivial
          cases rest₁ with
          | nil =>
            rw [streamEquiv_nil_left hrest]
            trivial
          | cons opTok₁ rest₁2 =>
            obtain ⟨opTok₂, rest₂2, rfl⟩ := streamEquiv_cons_left hrest
            obtain ⟨htop, hrest2⟩ := streamEquiv_parts hrest
            obtain ⟨hwfo₁, hwfr₁2⟩ := wfStream_cons hwf₁r
            obtain ⟨hwfo₂, hwfr₂2⟩ := wfStream_cons hwf₂r
            obtain ⟨dOp₁, opl₁, opo₁⟩ := opTok₁
            obtain ⟨dOp₂, opl₂, opo₂⟩ := opTok₂
            have hdop := (tokEquiv_parts htop).1
            rw [show Token.data ⟨dOp₁, opl₁, opo₁⟩ = dOp₁ from rfl,
              show Token.data ⟨dOp₂, opl₂, opo₂⟩ = dOp₂ from rfl] at hdop
            rcases dataEquiv_cases hdop with ⟨q₁, q₂, rfl, rfl⟩ | rfl
            · trivial
            cases dOp₁ with
            | keyword nm3 => trivial
            | logical nm3 => trivial
            | lparen => trivial
            | rparen => trivial
            | strLit rw3 => trivial
            | arrayLit rw3 dec3 => trivial
            | intLit nn3 rw3 => trivial
            | floatLit rw3 => trivial
            | macroName nm3 => trivial
            | undef rw3 => trivial
            | op opValue =>
              rcases hOp : operationsMapped opValue with _ | op
              · simp only [hOp]
                trivial
              simp only [hOp]
              cases rest₁2 with
              | nil =>
                rw [streamEquiv_nil_left hrest2]
                trivial
              | cons vTok₁ rest₁3 =>
                obtain ⟨vTok₂, rest₂3, rfl⟩ := streamEquiv_cons_left hrest2
                obtain ⟨htv, hrest3⟩ := streamEquiv_parts hrest2
                obtain ⟨hwfv₁, hwfr₁3⟩ := wfStream_cons hwfr₁2
                obtain ⟨hwfv₂, hwfr₂3⟩ := wfStream_cons hwfr₂2
                have hlen3 : rest₁3.length ≤ n := by
                  simp only [List.length_cons] at hlen2
                  omega
                obtain ⟨dV₁, vl₁, vo₁⟩ := vTok₁
                obtain ⟨dV₂, vl₂, vo₂⟩ := vTok₂
                have hdv := (tokEquiv_parts htv).1
                rw [show Token.data ⟨dV₁, vl₁, vo₁⟩ = dV₁ from rfl,
                  show Token.data ⟨dV₂, vl₂, vo₂⟩ = dV₂ from rfl] at hdv
                have hivt : isValueTok ⟨dV₁, vl₁, vo₁⟩ = isValueTok ⟨dV₂, vl₂, vo₂⟩ :=
                  isValueTok_equivData hdv
                dsimp only []
                by_cases hval : isValueTok ⟨dV₁, vl₁, vo₁⟩ = true
                case neg =>
                  rw [if_neg hval, if_neg (fun h2 => hval (hivt.symm ▸ h2))]
                  trivial
                rw [if_pos hval, if_pos (hivt ▸ hval)]
                rcases dataEquiv_cases hdv with ⟨r₁, r₂, rfl, rfl⟩ | rfl
                · rcases valueSwitch_rel ⟨.strLit r₁, vl₁, vo₁⟩ ⟨.strLit r₂, vl₂, vo₂⟩
                      op colName colName l₁ o₁ l₂ o₂ hdv with
                    ⟨e₁, e₂, hv₁, hv₂⟩ | ⟨cv₁, cv₂, q, hv₁, hv₂, hshape⟩
                  · simp only [hv₁, hv₂]
                    trivial
                  · simp only [hv₁, hv₂]
                    exact ih _ _ hlen3 _ _ _ _ _ _ hrest3 hwfr₁3 hwfr₂3 rfl
                      (by simp [hvals, hshape.length_eq])
                cases dV₁ with
                | macroName mName =>
                  cases rest₁3 with
                  | nil =>
                    rw [streamEquiv_nil_left hrest3]
                    trivial
                  | cons lpTok₁ rest₁4 =>
                    obtain ⟨lpTok₂, rest₂4, rfl⟩ := streamEquiv_cons_left hrest3
                    obtain ⟨htlp, hrest4⟩ := streamEquiv_parts hrest3
                    obtain ⟨dLp₁, lpl₁, lpo₁⟩ := lpTok₁
                    obtain ⟨dLp₂, lpl₂, lpo₂⟩ := lpTok₂
                    have hdlp := (tokEquiv_parts htlp).1
                    rw [show Token.data ⟨dLp₁, lpl₁, lpo₁⟩ = dLp₁ from rfl,
                      show Token.data ⟨dLp₂, lpl₂, lpo₂⟩ = dLp₂ from rfl] at hdlp
                    rcases dataEquiv_cases hdlp with ⟨s₁, s₂, rfl, rfl⟩ | rfl
                    · trivial
                    cases dLp₁ with
                    | keyword nm4 => trivial
                    | op nm4 => trivial
                    | logical nm4 => trivial
                    | rparen => trivial
                    | strLit rw4 => trivial
                    | arrayLit rw4 dec4 => trivial
                    | intLit nn4 rw4 => trivial
                    | floatLit rw4 => trivial
                    | macroName nm4 => trivial
                    | undef rw4 => trivial
                    | lparen =>
                      cases rest₁4 with
                      | nil =>
                        rw [streamEquiv_nil_left hrest4]
                        trivial
                      | cons w₁ rest₁5 =>
                        obtain ⟨w₂, rest₂5, rfl⟩ := streamEquiv_cons_left hrest4
                        obtain ⟨htw, hrest5⟩ := streamEquiv_parts hrest4
                        cases rest₁5 with
                        | nil =>
                          rw [streamEquiv_nil_left hrest5]
                          trivial
                        | cons cp₁ rest₁6 =>
                          obtain ⟨cp₂, rest₂6, rfl⟩ := streamEquiv_cons_left hrest5
                          obtain ⟨htcp, hrest6⟩ := streamEquiv_parts hrest5
                          obtain ⟨dCp₁, cpl₁, cpo₁⟩ := cp₁
                          obtain ⟨dCp₂, cpl₂, cpo₂⟩ := cp₂
                          have hdcp := (tokEquiv_parts htcp).1
                          rw [show Token.data ⟨dCp₁, cpl₁, cpo₁⟩ = dCp₁ from rfl,
                            show Token.data ⟨dCp₂, cpl₂, cpo₂⟩ = dCp₂ from rfl] at hdcp
                          have hrp : optIsRparen (some ⟨dCp₁, cpl₁, cpo₁⟩) =
                              optIsRparen (some ⟨dCp₂, cpl₂, cpo₂⟩) :=
                            optIsRparen_equivData hdcp
                          dsimp only []
                          rw [show optIsRparen (some ⟨dCp₂, cpl₂, cpo₂⟩) =
                            optIsRparen (some ⟨dCp₁, cpl₁, cpo₁⟩) from hrp.symm]
                          split
                          · trivial
                          have hdw := (tokEquiv_parts htw).1
                          obtain ⟨dW₁, wl₁, wo₁⟩ := w₁
                          obtain ⟨dW₂, wl₂, wo₂⟩ := w₂
                          rcases valueSwitch_rel ⟨dW₁, wl₁, wo₁⟩ ⟨dW₂, wl₂, wo₂⟩
                              op colName colName l₁ o₁ l₂ o₂ hdw with
                            ⟨e₁, e₂, hv₁, hv₂⟩ | ⟨cv₁, cv₂, q, hv₁, hv₂, hshape⟩
                          · simp only [hv₁, hv₂]
                            trivial
                          simp only [hv₁, hv₂]
                          rcases hMH : MacroHandlers mName with _ | h
                          · simp only [hMH]
                            trivial
                          simp only [hMH]
                          have hage : h = ageMacroRun := MacroHandlers_eq hMH
                          subst hage
                          rcases ageMacroRun_rel now₁ now₂ colName colName hshape with
                            ⟨e₁, e₂, hr₁, hr₂⟩ | ⟨u₁, u₂, hr₁, hr₂, hulen⟩
                          · simp only [hr₁, hr₂]
                            trivial
                          simp only [hr₁, hr₂]
                          cases rest₁6 with
                          | nil =>
                            rw [streamEquiv_nil_left hrest6]
                            exact ih [] [] (Nat.zero_le n) _ _ _ _ _ _ rfl rfl rfl
                              (optIsLogical_equivData hdcp)
                              (by simp [hvals, hulen])
                          | cons x₁ rest₁7 =>
                            obtain ⟨x₂, rest₂7, rfl⟩ := streamEquiv_cons_left hrest6
                            obtain ⟨htx, hrest7⟩ := streamEquiv_parts hrest6
                            obtain ⟨dX₁, xl₁, xo₁⟩ := x₁
                            obtain ⟨dX₂, xl₂, xo₂⟩ := x₂
                            have hdx := (tokEquiv_parts htx).1
                            rw [show Token.data ⟨dX₁, xl₁, xo₁⟩ = dX₁ from rfl,
                              show Token.data ⟨dX₂, xl₂, xo₂⟩ = dX₂ from rfl] at hdx
                            refine ih _ _ ?_ _ _ _ _ _ _ hrest7 ?_ ?_
                              (optIsLogical_equivData hdx) (by simp [hvals, hulen])
                            · simp only [List.length_cons] at hlen3
                              omega
                            · exact (wfStream_cons ((wfStream_cons ((wfStream_cons
                                ((wfStream_cons hwfr₁3).2)).2)).2)).2
                            · exact (wfStream_cons ((wfStream_cons ((wfStream_cons
                                ((wfStream_cons hwfr₂3).2)).2)).2)).2
                | keyword nm =>
                  rcases valueSwitch_rel ⟨.keyword nm, vl₁, vo₁⟩ ⟨.keyword nm, vl₂, vo₂⟩
                      op colName colName l₁ o₁ l₂ o₂ (dataEquiv_refl _) with
                    ⟨e₁, e₂, hv₁, hv₂⟩ | ⟨cv₁, cv₂, q, hv₁, hv₂, hshape⟩
                  · simp only [hv₁, hv₂]
                    trivial
                  · simp only [hv₁, hv₂]
                    exact ih _ _ hlen3 _ _ _ _ _ _ hrest3 hwfr₁3 hwfr₂3
                      optIsLogical_data (by simp [hvals, hshape.length_eq])
                | op nm2 =>
                  rcases valueSwitch_rel ⟨.op nm2, vl₁, vo₁⟩ ⟨.op nm2, vl₂, vo₂⟩
                      op colName colName l₁ o₁ l₂ o₂ (dataEquiv_refl _) with
                    ⟨e₁, e₂, hv₁, hv₂⟩ | ⟨cv₁, cv₂, q, hv₁, hv₂, hshape⟩
                  · simp only [hv₁, hv₂]
                    trivial
                  · simp only [hv₁, hv₂]
                    exact ih _ _ hlen3 _ _ _ _ _ _ hrest3 hwfr₁3 hwfr₂3
                      optIsLogical_data (by simp [hvals, hshape.length_eq])
                | logical nm =>
                  rcases valueSwitch_rel ⟨.logical nm, vl₁, vo₁⟩ ⟨.logical nm, vl₂, vo₂⟩
                      op colName colName l₁ o₁ l₂ o₂ (dataEquiv_refl _) with
                    ⟨e₁, e₂, hv₁, hv₂⟩ | ⟨cv₁, cv₂, q, hv₁, hv₂, hshape⟩
                  · simp only [hv₁, hv₂]
                    trivial
                  · simp only [hv₁, hv₂]
                    exact ih _ _ hlen3 _ _ _ _ _ _ hrest3 hwfr₁3 hwfr₂3
                      optIsLogical_data (by simp [hvals, hshape.length_eq])
                | lparen =>
                  rcases valueSwitch_rel ⟨.lparen, vl₁, vo₁⟩ ⟨.lparen, vl₂, vo₂⟩
                      op colName colName l₁ o₁ l₂ o₂ (dataEquiv_refl _) with
                    ⟨e₁, e₂, hv₁, hv₂⟩ | ⟨cv₁, cv₂, q, hv₁, hv₂, hshape⟩
                  · simp only [hv₁, hv₂]
                    trivial
                  · simp only [hv₁, hv₂]
                    exact ih _ _ hlen3 _ _ _ _ _ _ hrest3 hwfr₁3 hwfr₂3
                      optIsLogical_data (by simp [hvals, hshape.length_eq])
                | rparen =>
                  rcases valueSwitch_rel ⟨.rparen, vl₁, vo₁⟩ ⟨.rparen, vl₂, vo₂⟩
                      op colName colName l₁ o₁ l₂ o₂ (dataEquiv_refl _) with
                    ⟨e₁, e₂, hv₁, hv₂⟩ | ⟨cv₁, cv₂, q, hv₁, hv₂, hshape⟩
                  · simp only [hv₁, hv₂]
                    trivial
                  · simp only [hv₁, hv₂]
                    exact ih _ _ hlen3 _ _ _ _ _ _ hrest3 hwfr₁3 hwfr₂3
                      optIsLogical_data (by simp [hvals, hshape.length_eq])
                | strLit rw1 =>
                  rcases valueSwitch_rel ⟨.strLit rw1, vl₁, vo₁⟩ ⟨.strLit rw1, vl₂, vo₂⟩
                      op colName colName l₁ o₁ l₂ o₂ (dataEquiv_refl _) with
                    ⟨e₁, e₂, hv₁, hv₂⟩ | ⟨cv₁, cv₂, q, hv₁, hv₂, hshape⟩
                  · simp only [hv₁, hv₂]
                    trivial
                  · simp only [hv₁, hv₂]
                    exact ih _ _ hlen3 _ _ _ _ _ _ hrest3 hwfr₁3 hwfr₂3
                      optIsLogical_data (by simp [hvals, hshape.length_eq])
                | arrayLit rw1 dec =>
                  rcases valueSwitch_rel ⟨.arrayLit rw1 dec, vl₁, vo₁⟩ ⟨.arrayLit rw1 dec, vl₂, vo₂⟩
                      op colName colName l₁ o₁ l₂ o₂ (dataEquiv_refl _) with
                    ⟨e₁, e₂, hv₁, hv₂⟩ | ⟨cv₁, cv₂, q, hv₁, hv₂, hshape⟩
                  · simp only [hv₁, hv₂]
                    trivial
                  · simp only [hv₁, hv₂]
                    exact ih _ _ hlen3 _ _ _ _ _ _ hrest3 hwfr₁3 hwfr₂3
                      optIsLogical_data (by simp [hvals, hshape.length_eq])
                | intLit nn rw1 =>
                  rcases valueSwitch_rel ⟨.intLit nn rw1, vl₁, vo₁⟩ ⟨.intLit nn rw1, vl₂, vo₂⟩
                      op colName colName l₁ o₁ l₂ o₂ (dataEquiv_refl _) with
                    ⟨e₁, e₂, hv₁, hv₂⟩ | ⟨cv₁, cv₂, q, hv₁, hv₂, hshape⟩
                  · simp only [hv₁, hv₂]
                    trivial
                  · simp only [hv₁, hv₂]
                    exact ih _ _ hlen3 _ _ _ _ _ _ hrest3 hwfr₁3 hwfr₂3
                      optIsLogical_data (by simp [hvals, hshape.length_eq])
                | floatLit rw1 =>
                  rcases valueSwitch_rel ⟨.floatLit rw1, vl₁, vo₁⟩ ⟨.floatLit rw1, vl₂, vo₂⟩
                      op colName colName l₁ o₁ l₂ o₂ (dataEquiv_refl _) with
                    ⟨e₁, e₂, hv₁, hv₂⟩ | ⟨cv₁, cv₂, q, hv₁, hv₂, hshape⟩
                  · simp only [hv₁, hv₂]
                    trivial
                  · simp only [hv₁, hv₂]
                    exact ih _ _ hlen3 _ _ _ _ _ _ hrest3 hwfr₁3 hwfr₂3
                      optIsLogical_data (by simp [hvals, hshape.length_eq])
                | undef rw1 =>
                  rcases valueSwitch_rel ⟨.undef rw1, vl₁, vo₁⟩ ⟨.undef rw1, vl₂, vo₂⟩
                      op colName colName l₁ o₁ l₂ o₂ (dataEquiv_refl _) with
                    ⟨e₁, e₂, hv₁, hv₂⟩ | ⟨cv₁, cv₂, q, hv₁, hv₂, hshape⟩
                  · simp only [hv₁, hv₂]
                    trivial
                  · simp only [hv₁, hv₂]
                    exact ih _ _ hlen3 _ _ _ _ _ _ hrest3 hwfr₁3 hwfr₂3
                      optIsLogical_data (by simp [hvals, hshape.length_eq])
        case logical nm =>
          simp only [parseLoop, loopBody, logicalStep]
          rw [hprev, streamEquiv_head_logical hrest]
          split
          · trivial
          by_cases ho : o₁ = 0
          · rw [if_pos ho, if_pos (hoff.mp ho)]
            trivial
          · rw [if_neg ho, if_neg (fun h2 => ho (hoff.mpr h2))]
            cases rest₁ with
            | nil =>
              rw [streamEquiv_nil_left hrest]
              trivial
            | cons a as =>
              obtain ⟨b, bs, rfl⟩ := streamEquiv_cons_left hrest
              exact ih _ _ hlen2 _ _ _ _ _ _ hrest hwf₁r hwf₂r rfl hvals
        all_goals (
          simp only [parseLoop, loopBody, defaultStep, Token.valueString]
          rw [streamEquiv_head_keyword hrest, hvals]
          split
          · split
            · trivial
            · exact ih _ _ hlen2 _ _ _ _ _ _ hrest hwf₁r hwf₂r rfl hvals
          · split
            · split
              · trivial
              · exact ih _ _ hlen2 _ _ _ _ _ _ hrest hwf₁r hwf₂r rfl hvals
            · trivial)

lemma streamEquiv_length : ∀ {as bs : List Token},
    streamEquiv as bs = true → as.length = bs.length := by
  intro as
  induction as with
  | nil =>
    intro bs h
    rw [streamEquiv_nil_left h]
  | cons a as' ih =>
    intro bs h
    obtain ⟨b, bs', rfl⟩ := streamEquiv_cons_left h
    simp [ih (streamEquiv_parts h).2]

/-- C1: the compiled SQL text never depends on the contents of
quoted-string values.  For any two well-formed token streams that agree
except in the raw payloads of their quoted-string tokens (and under any
two clock readings), if the first parses successfully then so does the
second, with the identical SQL string and equally many arguments — the
string contents travel only through `Args`. -/
theorem C1_string_noninterference (now₁ now₂ : GoTime) (ts₁ ts₂ : List Token)
    (v : String → Bool) (p₁ : ParsedQuery)
    (hequiv : streamEquiv ts₁ ts₂ = true)
    (hwf₁ : wfStream ts₁ = true) (hwf₂ : wfStream ts₂ = true)
    (hp : Parse now₁ ts₁ v = .ok p₁) :
    ∃ p₂, Parse now₂ ts₂ v = .ok p₂ ∧ p₂.SQL = p₁.SQL ∧
      p₂.Args.length = p₁.Args.length := by
  have hlen : ts₂.length = ts₁.length := (streamEquiv_length hequiv).symm
  have h := parseLoop_rel v now₁ now₂ ts₁.length ts₁ ts₂ le_rfl none none "" [] [] []
    hequiv hwf₁ hwf₂ rfl rfl
  unfold Parse at hp ⊢
  rw [hlen]
  rw [hp] at h
  rcases hr : parseLoop now₂ v ts₁.length none ts₂ "" [] [] with e | p₂
  · rw [hr] at h
    exact (h : False).elim
  · rw [hr] at h
    exact ⟨p₂, rfl, h.1.symm, h.2.symm⟩

/-- Modelled from the spec: the token stream of `val eq "x"`. -/
def tsInjA : List Token :=
  [⟨.keyword "val", 1, 0⟩, ⟨.op "eq", 1, 4⟩, ⟨.strLit "\"x\"", 1, 7⟩]

/-- Modelled from the spec: the token stream of
`val eq "' OR 1=1; DROP TABLE users; --"` — same stream as `tsInjA`
except for the quoted string's contents. -/
def tsInjB : List Token :=
  [⟨.keyword "val", 1, 0⟩, ⟨.op "eq", 1, 4⟩,
   ⟨.strLit "\"' OR 1=1; DROP TABLE users; --\"", 1, 7⟩]

/-- Witness for C1: an injection-laden string value yields exactly the
same SQL as a benign one. -/
theorem C1_string_noninterference_witness :
    streamEquiv tsInjA tsInjB = true ∧
    wfStream tsInjA = true ∧ wfStream tsInjB = true ∧
    Parse now0 tsInjA allCols = .ok ⟨"val = ?", [.goString "x"]⟩ ∧
    (∃ p₂, Parse now0 tsInjB allCols = .ok p₂ ∧ p₂.SQL = "val = ?" ∧
      p₂.Args.length = 1) :=
  ⟨by decide, by decide, by decide, rfl,
    C1_string_noninterference now0 now0 tsInjA tsInjB allCols
      ⟨"val = ?", [.goString "x"]⟩ (by decide) (by decide) (by decide) rfl⟩

end Rqe
